import Mathlib

/-!
Shallow embedding of `src/library/src/rng/mrg32k3a.hpp` (rocRAND MRG32k3a
host/device orchestration layer): the engine-pool lifecycle, the two
generation kernels (1:1 strided and 2:1 pairing with odd tail), and the
host generator object.

The per-lane engine (`rocrand_device::mrg32k3a_engine`, from
`device_engines.hpp`) and the distribution functors (`distributions.hpp`)
are external collaborators not present under `src/`; following spec Â§6
they are modelled as parameters: an `EngineModel` provides deterministic
construction from (seed, lane index, offset) and a `next` draw operation,
and distribution functors are plain functions.  Raw engine outputs are
`â` (the engine's `unsigned int` values); output buffers are total
functions `â â Î±` mutated with `Function.update` (device memory, with
arbitrary initial garbage contents).

A GPU launch of `gridDim*blockDim` lanes is modelled by running the lanes
sequentially in lane-id order (`runLanes`): each lane reads and writes only
its own pool slot and a set of output positions disjoint from every other
lane's, so the parallel execution is data-race free and any
sequentialization computes the same result.
-/

namespace Rocrand

/-- `rocrand_status` codes used by this layer (`rocrand.h` is not under
`src/`; the constructors are the statuses named by the source and the
spec's error taxonomy: success, AllocationFailure, LaunchFailure,
InvalidParameter). -/
inductive rocrand_status where
  | success
  | allocation_failed
  | launch_failure
  | invalid_parameter
deriving DecidableEq

/-- Modelled from the spec: `EngineState(seed, lane_index, offset)`
construction and `EngineState.next()` (spec §6); the concrete
`mrg32k3a_engine` of `device_engines.hpp` is not under `src/`.  `engInit`
is the deterministic per-lane constructor, `next` advances the state by
one draw and returns the raw value. -/
structure EngineModel (σ : Type) where
  engInit : ℕ → ℕ → ℕ → σ
  next : σ → ℕ × σ

variable {σ : Type} {α : Type}

/-- Advance an engine state by `k` raw draws (discarding the values). -/
def engSkip (M : EngineModel σ) : ℕ → σ → σ
  | 0, e => e
  | k + 1, e => engSkip M k (M.next e).2

/-- The raw value of the `(m+1)`-th draw from state `e` (0-indexed `m`). -/
def drawAt (M : EngineModel σ) (e : σ) (m : ℕ) : ℕ :=
  (M.next (engSkip M m e)).1

/-- The body of `generate_kernel`'s per-lane loop
(`while(index < n) { data[index] = distribution(engine()); index += stride; }`,
mrg32k3a.hpp lines 60–65).  In the source `stride = gridDim*blockDim` is
always positive; the `0 < stride` conjunct in the guard makes the loop a
total function (with `stride = 0` and `index < n` the C loop would not
terminate, a configuration the launches never produce). -/
def laneLoop (M : EngineModel σ) (dist : ℕ → α) (n stride : ℕ) :
    ℕ → σ → (ℕ → α) → σ × (ℕ → α) := fun index e data =>
  if _h : index < n ∧ 0 < stride then
    laneLoop M dist n stride (index + stride) (M.next e).2
      (Function.update data index (dist (M.next e).1))
  else (e, data)
termination_by index => n - index
decreasing_by omega

/-- Number of iterations of the per-lane loop started at `index`
(the number of assigned positions `index, index+stride, … < n`). -/
def itersCount (n stride : ℕ) : ℕ → ℕ := fun index =>
  if h : index < n ∧ 0 < stride then itersCount n stride (index + stride) + 1
  else 0
termination_by index => n - index
decreasing_by omega

/-- Run the per-lane work `f` for lane ids `0, 1, …, L-1` on a
(pool, output buffer) state.  A launch of `L` lanes executes them in
parallel; every lane reads and writes only its own pool slot and output
positions in its own residue class mod the stride, so the lanes commute
and running them in lane-id order computes the parallel result. -/
def runLanes (f : ℕ → (ℕ → σ) × (ℕ → α) → (ℕ → σ) × (ℕ → α)) :
    ℕ → (ℕ → σ) × (ℕ → α) → (ℕ → σ) × (ℕ → α)
  | 0, st => st
  | L + 1, st => f L (runLanes f L st)

/-- One lane of `generate_kernel` (mrg32k3a.hpp lines 53–68): load the
engine from the pool slot `i`, run the strided sweep, save the engine
back to slot `i`. -/
def generate_lane (M : EngineModel σ) (dist : ℕ → α) (n numLanes i : ℕ)
    (st : (ℕ → σ) × (ℕ → α)) : (ℕ → σ) × (ℕ → α) :=
  let r := laneLoop M dist n numLanes i (st.1 i) st.2
  (Function.update st.1 i r.1, r.2)

/-- `rocrand_host::detail::generate_kernel` (mrg32k3a.hpp lines 49–69):
a launch of `numLanes = gridDim*blockDim` lanes, each sweeping positions
`engine_id, engine_id+stride, …` with `stride = numLanes`. -/
def generate_kernel (M : EngineModel σ) (dist : ℕ → α) (numLanes n : ℕ)
    (engines : ℕ → σ) (data : ℕ → α) : (ℕ → σ) × (ℕ → α) :=
  runLanes (generate_lane M dist n numLanes) numLanes (engines, data)

/-- The body of `generate_normal_kernel`'s per-lane loop
(mrg32k3a.hpp lines 87–92): `data2[index] = distribution(engine(), engine())`
writes one pair per iteration — the `RealType2` pair at `data2[index]`
occupies scalar slots `2*index` (component `.x`) and `2*index + 1`
(component `.y`).  The loop bound is `half = n / 2`.  The first functor
argument is the earlier of the two draws.  As in `laneLoop`, the
`0 < stride` guard conjunct only rules out the non-terminating
`stride = 0` configuration that no launch produces. -/
def laneLoop2 (M : EngineModel σ) (dist2 : ℕ → ℕ → α × α) (half stride : ℕ) :
    ℕ → σ → (ℕ → α) → σ × (ℕ → α) := fun index e data =>
  if _h : index < half ∧ 0 < stride then
    laneLoop2 M dist2 half stride (index + stride) (M.next (M.next e).2).2
      (Function.update (Function.update data (2 * index)
          (dist2 (M.next e).1 (M.next (M.next e).2).1).1)
        (2 * index + 1)
        (dist2 (M.next e).1 (M.next (M.next e).2).1).2)
  else (e, data)
termination_by index => half - index
decreasing_by omega

/-- One lane of `generate_normal_kernel` (mrg32k3a.hpp lines 79–103):
load the engine from slot `i`, run the paired strided sweep over
`n / 2` pairs, then — only for `engine_id == 0` when `(n & 1) > 0` —
perform one extra paired draw and write its first component (`result.x`)
to `data[n - 1]`, and finally save the engine back to slot `i`. -/
def generate_normal_lane (M : EngineModel σ) (dist2 : ℕ → ℕ → α × α)
    (n numLanes i : ℕ) (st : (ℕ → σ) × (ℕ → α)) : (ℕ → σ) × (ℕ → α) :=
  if i = 0 ∧ n % 2 = 1 then
    (Function.update st.1 i
       (M.next (M.next (laneLoop2 M dist2 (n / 2) numLanes i (st.1 i) st.2).1).2).2,
     Function.update (laneLoop2 M dist2 (n / 2) numLanes i (st.1 i) st.2).2 (n - 1)
       (dist2 (M.next (laneLoop2 M dist2 (n / 2) numLanes i (st.1 i) st.2).1).1
              (M.next (M.next (laneLoop2 M dist2 (n / 2) numLanes i
                (st.1 i) st.2).1).2).1).1)
  else
    (Function.update st.1 i (laneLoop2 M dist2 (n / 2) numLanes i (st.1 i) st.2).1,
     (laneLoop2 M dist2 (n / 2) numLanes i (st.1 i) st.2).2)

/-- `rocrand_host::detail::generate_normal_kernel` (mrg32k3a.hpp lines
73–104): a launch of `numLanes` lanes running the 2:1 pairing protocol. -/
def generate_normal_kernel (M : EngineModel σ) (dist2 : ℕ → ℕ → α × α)
    (numLanes n : ℕ) (engines : ℕ → σ) (data : ℕ → α) : (ℕ → σ) × (ℕ → α) :=
  runLanes (generate_normal_lane M dist2 n numLanes) numLanes (engines, data)

/-- Raw draws consumed by the tail handling of lane `i` on an output of
size `n`: two extra draws for lane 0 when `n` is odd, none otherwise. -/
def tailDraws (n i : ℕ) : ℕ := if i = 0 ∧ n % 2 = 1 then 2 else 0

/-- `ROCRAND_MRG32K3A_DEFAULT_SEED` (declared in `rocrand.h`, not under
`src/`); its value matches the constructor's default seed argument
`12345` (mrg32k3a.hpp line 115). -/
def ROCRAND_MRG32K3A_DEFAULT_SEED : ℕ := 12345

/-- Modelled from the spec: the single-entry Poisson parameter cache of
`poisson_distribution_manager<>` (`distributions.hpp`, not under `src/`;
spec §3, §4.5): at most one live entry `{lambda, precomputed functor}`;
`lambda = none` models the no-entry state before the first build.  The
cached functor `dis` maps one raw draw to one `unsigned int` output. -/
structure PoissonManager where
  lambda : Option ℚ
  dis : ℕ → ℕ

/-- The host generator object `rocrand_mrg32k3a` (mrg32k3a.hpp lines
109–310): seed and offset from the base type, the lazily initialized
device pool (`m_engines_ready` is the source's initialization flag,
`m_engines` the device array, `m_engines_size` its capacity), and the
Poisson cache. -/
structure rocrand_mrg32k3a (σ : Type) where
  m_seed : ℕ
  m_offset : ℕ
  m_engines_ready : Bool
  m_engines : ℕ → σ
  m_engines_size : ℕ
  poisson : PoissonManager

/-- The constructor (mrg32k3a.hpp lines 115–131), success path: allocate
the pool (its fresh device memory has arbitrary contents `mem`), then
remap a zero seed to the default constant.  `d0` is the arbitrary initial
functor of the default-constructed Poisson manager. -/
def construct (seed offset : ℕ) (mem : ℕ → σ) (d0 : ℕ → ℕ) :
    rocrand_mrg32k3a σ where
  m_seed := if seed = 0 then ROCRAND_MRG32K3A_DEFAULT_SEED else seed
  m_offset := offset
  m_engines_ready := false
  m_engines := mem
  m_engines_size := 1024 * 256
  poisson := { lambda := none, dis := d0 }

/-- `rocrand_mrg32k3a::reset` (mrg32k3a.hpp lines 138–141). -/
def reset (g : rocrand_mrg32k3a σ) : rocrand_mrg32k3a σ :=
  { g with m_engines_ready := false }

/-- `rocrand_mrg32k3a::set_seed` (mrg32k3a.hpp lines 147–155). -/
def set_seed (g : rocrand_mrg32k3a σ) (seed : ℕ) : rocrand_mrg32k3a σ :=
  { g with
      m_seed := if seed = 0 then ROCRAND_MRG32K3A_DEFAULT_SEED else seed
      m_engines_ready := false }

/-- `rocrand_mrg32k3a::set_offset` (mrg32k3a.hpp lines 157–161). -/
def set_offset (g : rocrand_mrg32k3a σ) (offset : ℕ) : rocrand_mrg32k3a σ :=
  { g with m_offset := offset, m_engines_ready := false }

/-- `rocrand_mrg32k3a::init` (mrg32k3a.hpp lines 163–189).  `numLanes` is
`blocks * threads` of the launch configuration (256·1024 on the AMD path,
128·128 on the NVCC path); `launchOk` models whether the dispatch can be
scheduled (`hipPeekAtLastError` after `hipLaunchKernelGGL`) — a launch
that cannot be scheduled runs no lane, so the pool is unchanged and the
flag stays false. -/
def init (M : EngineModel σ) (numLanes : ℕ) (launchOk : Bool)
    (g : rocrand_mrg32k3a σ) : rocrand_status × rocrand_mrg32k3a σ :=
  if g.m_engines_ready then (rocrand_status.success, g)
  else if launchOk then
    (rocrand_status.success,
     { g with
        m_engines := fun i =>
          if i < numLanes then M.engInit g.m_seed i g.m_offset
          else g.m_engines i
        m_engines_ready := true })
  else (rocrand_status.launch_failure, g)

/-- `rocrand_mrg32k3a::generate` (mrg32k3a.hpp lines 192–218): run
`init`, propagate its failure, then launch `generate_kernel` over
`numLanes = blocks * threads` lanes; a launch that cannot be scheduled
(`okGen = false`) runs nothing and reports LaunchFailure.  Returns
(status, generator, output buffer). -/
def generate (M : EngineModel σ) (numLanes : ℕ) (okInit okGen : Bool)
    (dist : ℕ → α) (g : rocrand_mrg32k3a σ) (data : ℕ → α) (n : ℕ) :
    rocrand_status × rocrand_mrg32k3a σ × (ℕ → α) :=
  let r := init M numLanes okInit g
  if r.1 ≠ rocrand_status.success then (r.1, r.2, data)
  else if okGen then
    (rocrand_status.success,
     { r.2 with
        m_engines := (generate_kernel M dist numLanes n r.2.m_engines data).1 },
     (generate_kernel M dist numLanes n r.2.m_engines data).2)
  else (rocrand_status.launch_failure, r.2, data)

/-- `rocrand_mrg32k3a::generate_normal` / `generate_log_normal`
(mrg32k3a.hpp lines 227–285), which differ only in the paired functor
they construct: run `init`, propagate its failure, then launch
`generate_normal_kernel`. -/
def generate_normal (M : EngineModel σ) (numLanes : ℕ) (okInit okGen : Bool)
    (dist2 : ℕ → ℕ → α × α) (g : rocrand_mrg32k3a σ) (data : ℕ → α) (n : ℕ) :
    rocrand_status × rocrand_mrg32k3a σ × (ℕ → α) :=
  let r := init M numLanes okInit g
  if r.1 ≠ rocrand_status.success then (r.1, r.2, data)
  else if okGen then
    (rocrand_status.success,
     { r.2 with
        m_engines :=
          (generate_normal_kernel M dist2 numLanes n r.2.m_engines data).1 },
     (generate_normal_kernel M dist2 numLanes n r.2.m_engines data).2)
  else (rocrand_status.launch_failure, r.2, data)

/-- Modelled from the spec: `poisson_distribution_manager::set_lambda`
(`distributions.hpp`, not under `src/`; spec §4.5).  `valid` abstracts
the lambda domain check of the Poisson table construction, `mkDis` the
construction of the table-backed functor.  Equal lambda: no-op; changed
valid lambda: rebuild replacing the entry; invalid lambda:
InvalidParameter with the previous entry untouched. -/
def set_lambda (valid : ℚ → Bool) (mkDis : ℚ → ℕ → ℕ)
    (p : PoissonManager) (lam : ℚ) : rocrand_status × PoissonManager :=
  if p.lambda = some lam then (rocrand_status.success, p)
  else if valid lam then
    (rocrand_status.success, { lambda := some lam, dis := mkDis lam })
  else (rocrand_status.invalid_parameter, p)

/-- `rocrand_mrg32k3a::generate_poisson` (mrg32k3a.hpp lines 287–298):
apply `set_lambda` to the cache; a thrown status is returned without
launching anything; on success dispatch the 1:1 protocol with the cached
functor `poisson.dis`. -/
def generate_poisson (M : EngineModel σ) (numLanes : ℕ) (okInit okGen : Bool)
    (valid : ℚ → Bool) (mkDis : ℚ → ℕ → ℕ) (g : rocrand_mrg32k3a σ)
    (data : ℕ → ℕ) (n : ℕ) (lam : ℚ) :
    rocrand_status × rocrand_mrg32k3a σ × (ℕ → ℕ) :=
  let r := set_lambda valid mkDis g.poisson lam
  if r.1 ≠ rocrand_status.success then (r.1, g, data)
  else
    generate M numLanes okInit okGen r.2.dis { g with poisson := r.2 } data n

/-- A small concrete engine model used to instantiate witnesses and
counterexamples: the state is (lane, draws consumed) and the raw value of
lane `l`'s `(c+1)`-th draw is `100*l + c`, so distinct lanes produce
distinct, non-overlapping substreams as the spec requires of the engine
(§4.2, §6). -/
def toyEngine : EngineModel (ℕ × ℕ) where
  engInit := fun _ lane _ => (lane, 0)
  next := fun e => (100 * e.1 + e.2, (e.1, e.2 + 1))

/-- Every pool slot below the launch width holds a state obtained from
the per-lane construction at the generator's current (seed, offset) by
some number of draws — the sense in which the pool "reflects" the current
(seed, offset) pair (spec §3). -/
def laneDerived (M : EngineModel σ) (numLanes : ℕ)
    (g : rocrand_mrg32k3a σ) : Prop :=
  ∀ i < numLanes, ∃ d, g.m_engines i = engSkip M d (M.engInit g.m_seed i g.m_offset)

/-- The generator states reachable through the public operations of
`rocrand_mrg32k3a`, all launches dispatched with `numLanes` lanes. -/
inductive Reachable (M : EngineModel σ) (numLanes : ℕ) :
    rocrand_mrg32k3a σ → Prop where
  | construct_ok : ∀ seed offset mem d0,
      Reachable M numLanes (construct seed offset mem d0)
  | reset_step : ∀ g, Reachable M numLanes g → Reachable M numLanes (reset g)
  | set_seed_step : ∀ g seed, Reachable M numLanes g →
      Reachable M numLanes (set_seed g seed)
  | set_offset_step : ∀ g offset, Reachable M numLanes g →
      Reachable M numLanes (set_offset g offset)
  | init_step : ∀ g ok, Reachable M numLanes g →
      Reachable M numLanes (init M numLanes ok g).2
  | generate_step : ∀ (α : Type) (dist : ℕ → α) g data n okI okG,
      Reachable M numLanes g →
      Reachable M numLanes (generate M numLanes okI okG dist g data n).2.1
  | generate_normal_step : ∀ (α : Type) (dist2 : ℕ → ℕ → α × α) g data n okI okG,
      Reachable M numLanes g →
      Reachable M numLanes (generate_normal M numLanes okI okG dist2 g data n).2.1
  | generate_poisson_step : ∀ valid mkDis g data n lam okI okG,
      Reachable M numLanes g →
      Reachable M numLanes
        (generate_poisson M numLanes okI okG valid mkDis g data n lam).2.1

/-- One generation call of a client-visible call sequence: a 1:1 call
(`generate`/`generate_uniform`), a 2:1 pairing call
(`generate_normal`/`generate_log_normal`), or a Poisson call. -/
inductive GenCall where
  | uniform (n : ℕ)
  | normalCall (n : ℕ)
  | poissonCall (n : ℕ) (lam : ℚ)

/-- Execute one call on a fresh output buffer `buf` (arbitrary garbage
contents); record the written length-`n` output sequence. -/
def runCall (M : EngineModel σ) (numLanes : ℕ) (dist : ℕ → ℕ)
    (dist2 : ℕ → ℕ → ℕ × ℕ) (valid : ℚ → Bool) (mkDis : ℚ → ℕ → ℕ)
    (g : rocrand_mrg32k3a σ) :
    GenCall → (ℕ → ℕ) → rocrand_mrg32k3a σ × List ℕ
  | GenCall.uniform n, buf =>
      ((generate M numLanes true true dist g buf n).2.1,
       (List.range n).map (generate M numLanes true true dist g buf n).2.2)
  | GenCall.normalCall n, buf =>
      ((generate_normal M numLanes true true dist2 g buf n).2.1,
       (List.range n).map (generate_normal M numLanes true true dist2 g buf n).2.2)
  | GenCall.poissonCall n lam, buf =>
      ((generate_poisson M numLanes true true valid mkDis g buf n lam).2.1,
       (List.range n).map
         (generate_poisson M numLanes true true valid mkDis g buf n lam).2.2)

/-- Execute a call sequence, threading the generator state; `bufs j` is
the (garbage-initialized) output buffer handed to the `j`-th call.
Returns the list of recorded output sequences. -/
def runSeq (M : EngineModel σ) (numLanes : ℕ) (dist : ℕ → ℕ)
    (dist2 : ℕ → ℕ → ℕ × ℕ) (valid : ℚ → Bool) (mkDis : ℚ → ℕ → ℕ) :
    rocrand_mrg32k3a σ → List GenCall → (ℕ → ℕ → ℕ) → List (List ℕ)
  | _, [], _ => []
  | g, c :: rest, bufs =>
      (runCall M numLanes dist dist2 valid mkDis g c (bufs 0)).2 ::
        runSeq M numLanes dist dist2 valid mkDis
          (runCall M numLanes dist dist2 valid mkDis g c (bufs 0)).1 rest
          (fun j => bufs (j + 1))

/-- Two generator states that a pair of independent runs cannot tell
apart: equal seed, offset, readiness flag and Poisson cache, and — once
the pool is initialized — equal engine states on every launched lane.
(The pool's device allocations start with arbitrary, run-dependent
garbage, so uninitialized slots may differ.) -/
def gAgree (numLanes : ℕ) (g1 g2 : rocrand_mrg32k3a σ) : Prop :=
  g1.m_seed = g2.m_seed ∧ g1.m_offset = g2.m_offset ∧
  g1.m_engines_ready = g2.m_engines_ready ∧ g1.poisson = g2.poisson ∧
  (g1.m_engines_ready = true →
    ∀ i < numLanes, g1.m_engines i = g2.m_engines i)

theorem engSkip_add (M : EngineModel σ) (a b : ℕ) (e : σ) :
    engSkip M (a + b) e = engSkip M a (engSkip M b e) := by
  induction b generalizing e with
  | zero => rfl
  | succ b ih =>
      have h : a + (b + 1) = (a + b) + 1 := rfl
      rw [h, engSkip, engSkip, ih]

theorem drawAt_engSkip (M : EngineModel σ) (j m : ℕ) (e : σ) :
    drawAt M (engSkip M j e) m = drawAt M e (m + j) := by
  rw [drawAt, drawAt, engSkip_add]

theorem itersCount_step (n stride index : ℕ) (h : index < n) (hs : 0 < stride) :
    itersCount n stride index = itersCount n stride (index + stride) + 1 := by
  rw [itersCount]; simp [h, hs]

theorem itersCount_stop (n stride index : ℕ) (h : ¬(index < n ∧ 0 < stride)) :
    itersCount n stride index = 0 := by
  rw [itersCount]; simp only [dif_neg h]

/-- The loop leaves the engine advanced by exactly its iteration count. -/
theorem laneLoop_fst (M : EngineModel σ) (dist : ℕ → α) (n stride : ℕ) :
    ∀ index e data,
      (laneLoop M dist n stride index e data).1 =
        engSkip M (itersCount n stride index) e := by
  intro index e data
  by_cases h : index < n ∧ 0 < stride
  · rw [laneLoop, itersCount]
    simp only [dif_pos h]
    rw [laneLoop_fst M dist n stride (index + stride)]
    rw [show itersCount n stride (index + stride) + 1
          = itersCount n stride (index + stride) + 1 from rfl]
    rw [engSkip]
  · rw [laneLoop, itersCount]
    simp only [dif_neg h]
    rfl
termination_by index => n - index
decreasing_by omega

/-- Frame: positions not of the form `index + m*stride` below `n` are
not written by the loop. -/
theorem laneLoop_frame (M : EngineModel σ) (dist : ℕ → α) (n stride : ℕ) :
    ∀ index e data p, (¬ ∃ m, p = index + m * stride ∧ p < n) →
      (laneLoop M dist n stride index e data).2 p = data p := by
  intro index e data p hp
  by_cases h : index < n ∧ 0 < stride
  · rw [laneLoop]
    simp only [dif_pos h]
    rw [laneLoop_frame M dist n stride (index + stride) _ _ p]
    · rw [Function.update_apply]
      have hne : p ≠ index := by
        intro he; exact hp ⟨0, by omega, by omega⟩
      simp [hne]
    · intro ⟨m, hm, hmn⟩
      refine hp ⟨m + 1, ?_, hmn⟩
      rw [hm]; ring
  · rw [laneLoop]
    simp only [dif_neg h]
termination_by index => n - index
decreasing_by omega

/-- Written positions: the `(m+1)`-th assigned position of the loop holds
the distribution applied to the `(m+1)`-th raw draw from the loaded state. -/
theorem laneLoop_write (M : EngineModel σ) (dist : ℕ → α) (n stride : ℕ)
    (hs : 0 < stride) :
    ∀ m index e data, index + m * stride < n →
      (laneLoop M dist n stride index e data).2 (index + m * stride) =
        dist (drawAt M e m) := by
  intro m
  induction m with
  | zero =>
      intro index e data hlt
      simp only [Nat.zero_mul, Nat.add_zero] at hlt ⊢
      rw [laneLoop]
      simp only [dif_pos (And.intro hlt hs)]
      rw [laneLoop_frame]
      · simp [drawAt, engSkip]
      · intro ⟨m', hm', _⟩
        omega
  | succ m ih =>
      intro index e data hlt
      have hlt' : index < n := by
        have : index ≤ index + (m + 1) * stride := Nat.le_add_right _ _
        omega
      rw [laneLoop]
      simp only [dif_pos (And.intro hlt' hs)]
      have harith : index + (m + 1) * stride = (index + stride) + m * stride := by
        ring
      rw [harith]
      rw [ih (index + stride) (M.next e).2 _ (by omega)]
      have hdraw : drawAt M (M.next e).2 m = drawAt M e (m + 1) := by
        rw [drawAt, drawAt]
        rfl
      rw [hdraw]

/-- Positions in lane `i`'s strided residue class are exactly those with
`p % stride = i`, for `i < stride`. -/
theorem strided_mem (stride i p : ℕ) (hi : i < stride) :
    (∃ m, p = i + m * stride) ↔ p % stride = i := by
  constructor
  · rintro ⟨m, rfl⟩
    rw [Nat.add_mul_mod_self_right]
    exact Nat.mod_eq_of_lt hi
  · intro h
    refine ⟨p / stride, ?_⟩
    conv_lhs => rw [← Nat.mod_add_div' p stride]
    rw [h]

/-- Pool contents after the first `L` lanes of `generate_kernel`:
lane `i < L` holds its engine advanced by its iteration count; other
slots are untouched. -/
theorem runLanes_generate_fst (M : EngineModel σ) (dist : ℕ → α)
    (n numLanes : ℕ) (engines : ℕ → σ) (data : ℕ → α) :
    ∀ L, ∀ i,
      (runLanes (generate_lane M dist n numLanes) L (engines, data)).1 i =
        if i < L then engSkip M (itersCount n numLanes i) (engines i)
        else engines i := by
  intro L
  induction L with
  | zero => intro i; simp [runLanes]
  | succ L ih =>
      intro i
      show (generate_lane M dist n numLanes L _).1 i = _
      rw [generate_lane]
      simp only [Function.update_apply]
      by_cases hiL : i = L
      · subst hiL
        simp only [if_pos rfl]
        rw [laneLoop_fst, ih i]
        simp [Nat.lt_irrefl, Nat.lt_succ_self]
      · simp only [if_neg hiL]
        rw [ih i]
        by_cases hlt : i < L
        · simp [hlt, Nat.lt_succ_of_lt hlt]
        · have : ¬ i < L + 1 := by omega
          simp [hlt, this]

/-- Output buffer after the first `L` lanes of `generate_kernel`:
position `p < n` in a residue class already swept holds the functor
applied to the `(p / stride + 1)`-th draw of lane `p % stride`; all other
positions are untouched. -/
theorem runLanes_generate_snd (M : EngineModel σ) (dist : ℕ → α)
    (n numLanes : ℕ) (engines : ℕ → σ) (data : ℕ → α) (hs : 0 < numLanes) :
    ∀ L, L ≤ numLanes → ∀ p,
      (runLanes (generate_lane M dist n numLanes) L (engines, data)).2 p =
        if p < n ∧ p % numLanes < L then
          dist (drawAt M (engines (p % numLanes)) (p / numLanes))
        else data p := by
  intro L
  induction L with
  | zero => intro _ p; simp [runLanes]
  | succ L ih =>
      intro hL p
      have hLlt : L < numLanes := hL
      show (generate_lane M dist n numLanes L _).2 p = _
      rw [generate_lane]
      by_cases hmem : p < n ∧ p % numLanes = L
      · obtain ⟨hpn, hpm⟩ := hmem
        have hform : L + p / numLanes * numLanes = p := by
          conv_rhs => rw [← Nat.mod_add_div' p numLanes]
          rw [hpm]
        have hw := laneLoop_write M dist n numLanes hs (p / numLanes) L
          ((runLanes (generate_lane M dist n numLanes) L (engines, data)).1 L)
          ((runLanes (generate_lane M dist n numLanes) L (engines, data)).2)
          (by rw [hform]; exact hpn)
        rw [hform] at hw
        rw [hw, runLanes_generate_fst]
        simp only [Nat.lt_irrefl, if_neg (Nat.lt_irrefl L)]
        have : p % numLanes < L + 1 := by omega
        simp [hpn, this, hpm]
      · have hnot : ¬ ∃ m, p = L + m * numLanes ∧ p < n := by
          intro ⟨m, hm, hpn⟩
          refine hmem ⟨hpn, ?_⟩
          have := (strided_mem numLanes L p hLlt).mp ⟨m, hm⟩
          exact this
        rw [laneLoop_frame M dist n numLanes L _ _ p hnot]
        rw [ih (Nat.le_of_succ_le hL) p]
        by_cases hpn : p < n
        · have hne : p % numLanes ≠ L := fun hc => hmem ⟨hpn, hc⟩
          by_cases hlt : p % numLanes < L
          · simp [hpn, hlt, Nat.lt_succ_of_lt hlt]
          · have h1 : ¬ p % numLanes < L + 1 := by omega
            simp [hpn, hlt, h1]
        · simp [hpn]

/-- `generate_kernel`'s pool effect: each launched lane's engine is
advanced by exactly the number of positions it was assigned; slots at or
beyond the launch width are untouched. -/
theorem generate_kernel_fst (M : EngineModel σ) (dist : ℕ → α)
    (numLanes n : ℕ) (engines : ℕ → σ) (data : ℕ → α) (i : ℕ) :
    (generate_kernel M dist numLanes n engines data).1 i =
      if i < numLanes then engSkip M (itersCount n numLanes i) (engines i)
      else engines i :=
  runLanes_generate_fst M dist n numLanes engines data numLanes i

/-- `generate_kernel`'s output effect: position `p < n` receives the
functor applied to the `(p / stride + 1)`-th raw draw of lane
`p % stride`; positions at or beyond `n` are untouched. -/
theorem generate_kernel_snd (M : EngineModel σ) (dist : ℕ → α)
    (numLanes n : ℕ) (engines : ℕ → σ) (data : ℕ → α) (hs : 0 < numLanes)
    (p : ℕ) :
    (generate_kernel M dist numLanes n engines data).2 p =
      if p < n then dist (drawAt M (engines (p % numLanes)) (p / numLanes))
      else data p := by
  rw [generate_kernel,
    runLanes_generate_snd M dist n numLanes engines data hs numLanes
      (Nat.le_refl _) p]
  have hmod : p % numLanes < numLanes := Nat.mod_lt _ hs
  by_cases hpn : p < n
  · simp [hpn, hmod]
  · simp [hpn]

/-- The pairing loop advances the engine by two draws per iteration. -/
theorem laneLoop2_fst (M : EngineModel σ) (dist2 : ℕ → ℕ → α × α)
    (half stride : ℕ) :
    ∀ index e data,
      (laneLoop2 M dist2 half stride index e data).1 =
        engSkip M (2 * itersCount half stride index) e := by
  intro index e data
  by_cases h : index < half ∧ 0 < stride
  · rw [laneLoop2, itersCount]
    simp only [dif_pos h]
    rw [laneLoop2_fst M dist2 half stride (index + stride)]
    have h2 : 2 * (itersCount half stride (index + stride) + 1)
        = 2 * itersCount half stride (index + stride) + 2 := by ring
    rw [h2, engSkip_add]
    rfl
  · rw [laneLoop2, itersCount]
    simp only [dif_neg h]
    rfl
termination_by index => half - index
decreasing_by omega

/-- Frame for the pairing loop: positions outside the lane's paired
write set are untouched. -/
theorem laneLoop2_frame (M : EngineModel σ) (dist2 : ℕ → ℕ → α × α)
    (half stride : ℕ) :
    ∀ index e data p,
      (¬ ∃ m, (p = 2 * (index + m * stride) ∨ p = 2 * (index + m * stride) + 1)
          ∧ index + m * stride < half) →
      (laneLoop2 M dist2 half stride index e data).2 p = data p := by
  intro index e data p hp
  by_cases h : index < half ∧ 0 < stride
  · rw [laneLoop2]
    simp only [dif_pos h]
    rw [laneLoop2_frame M dist2 half stride (index + stride) _ _ p]
    · have h0 : p ≠ 2 * index := by
        intro he; exact hp ⟨0, by left; rw [he]; ring_nf, by omega⟩
      have h1 : p ≠ 2 * index + 1 := by
        intro he; exact hp ⟨0, by right; rw [he]; ring_nf, by omega⟩
      rw [Function.update_apply, Function.update_apply]
      simp [h0, h1]
    · intro ⟨m, hm, hmlt⟩
      refine hp ⟨m + 1, ?_, ?_⟩
      · have harith : index + stride + m * stride = index + (m + 1) * stride := by
          ring
        rw [harith] at hm
        exact hm
      · have harith : index + stride + m * stride = index + (m + 1) * stride := by
          ring
        omega
  · rw [laneLoop2]
    simp only [dif_neg h]
termination_by index => half - index
decreasing_by omega

/-- Written pairs: the `(m+1)`-th assigned paired position of the loop
holds the two components of the functor applied to the lane's
`(2m+1)`-th and `(2m+2)`-th raw draws since load. -/
theorem laneLoop2_write (M : EngineModel σ) (dist2 : ℕ → ℕ → α × α)
    (half stride : ℕ) (hs : 0 < stride) :
    ∀ m index e data, index + m * stride < half →
      (laneLoop2 M dist2 half stride index e data).2 (2 * (index + m * stride)) =
        (dist2 (drawAt M e (2 * m)) (drawAt M e (2 * m + 1))).1 ∧
      (laneLoop2 M dist2 half stride index e data).2 (2 * (index + m * stride) + 1) =
        (dist2 (drawAt M e (2 * m)) (drawAt M e (2 * m + 1))).2 := by
  intro m
  induction m with
  | zero =>
      intro index e data hlt
      simp only [Nat.zero_mul, Nat.add_zero, Nat.mul_zero] at hlt ⊢
      rw [laneLoop2]
      simp only [dif_pos (And.intro hlt hs)]
      constructor
      · rw [laneLoop2_frame]
        · have hne : 2 * index ≠ 2 * index + 1 := by omega
          rw [Function.update_apply, if_neg hne]
          rw [Function.update_apply, if_pos rfl]
          have hd0 : drawAt M e 0 = (M.next e).1 := rfl
          have hd1 : drawAt M e 1 = (M.next (M.next e).2).1 := rfl
          rw [hd0, hd1]
        · intro ⟨m', hm', _⟩
          rcases hm' with hm' | hm' <;> omega
      · rw [laneLoop2_frame]
        · rw [Function.update_apply, if_pos rfl]
          have hd0 : drawAt M e 0 = (M.next e).1 := rfl
          have hd1 : drawAt M e 1 = (M.next (M.next e).2).1 := rfl
          rw [hd0, hd1]
        · intro ⟨m', hm', _⟩
          rcases hm' with hm' | hm' <;> omega
  | succ m ih =>
      intro index e data hlt
      have hlt' : index < half := by
        have : index ≤ index + (m + 1) * stride := Nat.le_add_right _ _
        omega
      rw [laneLoop2]
      simp only [dif_pos (And.intro hlt' hs)]
      have harith : index + (m + 1) * stride = (index + stride) + m * stride := by
        ring
      rw [harith]
      have hrec := ih (index + stride) (M.next (M.next e).2).2
        (Function.update (Function.update data (2 * index)
            (dist2 (M.next e).1 (M.next (M.next e).2).1).1)
          (2 * index + 1)
          (dist2 (M.next e).1 (M.next (M.next e).2).1).2)
        (by omega)
      have hdrawa : drawAt M (M.next (M.next e).2).2 (2 * m)
          = drawAt M e (2 * (m + 1)) := by
        have he2 : (M.next (M.next e).2).2 = engSkip M 2 e := rfl
        rw [he2, drawAt_engSkip]
        have : 2 * m + 2 = 2 * (m + 1) := by ring
        rw [this]
      have hdrawb : drawAt M (M.next (M.next e).2).2 (2 * m + 1)
          = drawAt M e (2 * (m + 1) + 1) := by
        have he2 : (M.next (M.next e).2).2 = engSkip M 2 e := rfl
        rw [he2, drawAt_engSkip]
        have : 2 * m + 1 + 2 = 2 * (m + 1) + 1 := by ring
        rw [this]
      rw [hdrawa, hdrawb] at hrec
      exact hrec

/-- The scalar positions covered by lane `i`'s paired strided sweep are
exactly those `p` below `2*half` whose pair index `p / 2` falls in lane
`i`'s residue class. -/
theorem paired_mem (s i half p : ℕ) (hi : i < s) :
    (∃ m, (p = 2 * (i + m * s) ∨ p = 2 * (i + m * s) + 1) ∧ i + m * s < half)
      ↔ (p < 2 * half ∧ (p / 2) % s = i) := by
  constructor
  · rintro ⟨m, hm, hlt⟩
    have hidx : (i + m * s) % s = i := (strided_mem s i _ hi).mp ⟨m, rfl⟩
    have hdiv : p / 2 = i + m * s := by rcases hm with rfl | rfl <;> omega
    constructor
    · rcases hm with rfl | rfl <;> omega
    · rw [hdiv]; exact hidx
  · rintro ⟨hlt, hmod⟩
    obtain ⟨m, hm⟩ := (strided_mem s i (p / 2) hi).mpr hmod
    refine ⟨m, ?_, by omega⟩
    rw [← hm]
    omega

/-- Pool contents after the first `L` lanes of `generate_normal_kernel`:
lane `i < L` is advanced by two draws per assigned pair plus its tail
draws; other slots are untouched. -/
theorem runLanes_normal_fst (M : EngineModel σ) (dist2 : ℕ → ℕ → α × α)
    (n numLanes : ℕ) (engines : ℕ → σ) (data : ℕ → α) :
    ∀ L, ∀ i,
      (runLanes (generate_normal_lane M dist2 n numLanes) L (engines, data)).1 i =
        if i < L then
          engSkip M (2 * itersCount (n / 2) numLanes i + tailDraws n i) (engines i)
        else engines i := by
  intro L
  induction L with
  | zero => intro i; simp [runLanes]
  | succ L ih =>
      intro i
      show (generate_normal_lane M dist2 n numLanes L _).1 i = _
      rw [generate_normal_lane]
      by_cases hc : L = 0 ∧ n % 2 = 1
      · rw [if_pos hc]
        simp only [Function.update_apply]
        by_cases hiL : i = L
        · subst hiL
          simp only [if_pos rfl]
          rw [laneLoop2_fst, ih i]
          simp only [Nat.lt_irrefl, if_neg (Nat.lt_irrefl i)]
          have htail : tailDraws n i = 2 := by
            rw [tailDraws, if_pos (by exact ⟨hc.1, hc.2⟩)]
          have hskip2 : ∀ e : σ, (M.next (M.next e).2).2 = engSkip M 2 e :=
            fun e => rfl
          rw [hskip2, ← engSkip_add, htail, if_pos (Nat.lt_succ_self i),
            Nat.add_comm 2 (2 * itersCount (n / 2) numLanes i)]
          simp
        · simp only [if_neg hiL]
          rw [ih i]
          by_cases hlt : i < L
          · simp [hlt, Nat.lt_succ_of_lt hlt]
          · have : ¬ i < L + 1 := by omega
            simp [hlt, this]
      · rw [if_neg hc]
        simp only [Function.update_apply]
        by_cases hiL : i = L
        · subst hiL
          simp only [if_pos rfl]
          rw [laneLoop2_fst, ih i]
          simp only [Nat.lt_irrefl, if_neg (Nat.lt_irrefl i)]
          have htail : tailDraws n i = 0 := by
            rw [tailDraws, if_neg hc]
          rw [htail, if_pos (Nat.lt_succ_self i), Nat.add_zero]
          simp
        · simp only [if_neg hiL]
          rw [ih i]
          by_cases hlt : i < L
          · simp [hlt, Nat.lt_succ_of_lt hlt]
          · have : ¬ i < L + 1 := by omega
            simp [hlt, this]

/-- Output buffer after the first `L` lanes of `generate_normal_kernel`:
a scalar position `p` below `2*(n/2)` in an already-swept residue class
holds the matching component of the functor applied to the lane's
consecutive draw pair; for odd `n` the position `n-1` holds the first
component of lane 0's extra tail pair; everything else is untouched. -/
theorem runLanes_normal_snd (M : EngineModel σ) (dist2 : ℕ → ℕ → α × α)
    (n numLanes : ℕ) (engines : ℕ → σ) (data : ℕ → α) (hs : 0 < numLanes) :
    ∀ L, L ≤ numLanes → ∀ p,
      (runLanes (generate_normal_lane M dist2 n numLanes) L (engines, data)).2 p =
        if p < 2 * (n / 2) ∧ (p / 2) % numLanes < L then
          (if p % 2 = 0 then
            (dist2 (drawAt M (engines ((p / 2) % numLanes)) (2 * (p / 2 / numLanes)))
              (drawAt M (engines ((p / 2) % numLanes))
                (2 * (p / 2 / numLanes) + 1))).1
          else
            (dist2 (drawAt M (engines ((p / 2) % numLanes)) (2 * (p / 2 / numLanes)))
              (drawAt M (engines ((p / 2) % numLanes))
                (2 * (p / 2 / numLanes) + 1))).2)
        else if n % 2 = 1 ∧ p = n - 1 ∧ 0 < L then
          (dist2 (drawAt M (engines 0) (2 * itersCount (n / 2) numLanes 0))
            (drawAt M (engines 0) (2 * itersCount (n / 2) numLanes 0 + 1))).1
        else data p := by
  intro L
  induction L with
  | zero => intro _ p; simp [runLanes]
  | succ L ih =>
      intro hL p
      have hLlt : L < numLanes := hL
      have hstL : (runLanes (generate_normal_lane M dist2 n numLanes) L
          (engines, data)).1 L = engines L := by
        rw [runLanes_normal_fst]
        simp
      show (generate_normal_lane M dist2 n numLanes L _).2 p = _
      rw [generate_normal_lane]
      by_cases hc : L = 0 ∧ n % 2 = 1
      · obtain ⟨hL0, hodd⟩ := hc
        subst hL0
        rw [if_pos ⟨rfl, hodd⟩]
        simp only [runLanes]
        by_cases hp : p = n - 1
        · rw [Function.update_apply, if_pos hp, laneLoop2_fst]
          have e2 : (M.next (engSkip M (2 * itersCount (n / 2) numLanes 0)
              (engines 0))).2
              = engSkip M (1 + 2 * itersCount (n / 2) numLanes 0) (engines 0) := by
            rw [engSkip_add]
            rfl
          rw [e2]
          have hnotlt : ¬ (p < 2 * (n / 2) ∧ (p / 2) % numLanes < 0 + 1) := by
            intro hx
            omega
          rw [if_neg hnotlt, if_pos ⟨hodd, hp, Nat.zero_lt_one⟩]
          have hdm : (M.next (engSkip M (1 + 2 * itersCount (n / 2) numLanes 0)
              (engines 0))).1
              = drawAt M (engines 0) (2 * itersCount (n / 2) numLanes 0 + 1) := by
            rw [drawAt, Nat.add_comm]
          rw [hdm]
          rfl
        · rw [Function.update_apply, if_neg hp]
          by_cases hin : p < 2 * (n / 2) ∧ (p / 2) % numLanes = 0
          · obtain ⟨m, hm, hlt⟩ := (paired_mem numLanes 0 (n / 2) p hs).mpr hin
            have hw := laneLoop2_write M dist2 (n / 2) numLanes hs m 0
              (engines 0) data hlt
            have hdivm : p / 2 / numLanes = m := by
              have hdiv2 : p / 2 = 0 + m * numLanes := by
                rcases hm with hm | hm <;> omega
              rw [hdiv2, Nat.zero_add, Nat.mul_div_cancel _ hs]
            rcases hm with hm | hm
            · have hpar : p % 2 = 0 := by omega
              rw [hm] at hp ⊢
              rw [hw.1,
                if_pos ⟨by omega, by rw [← hm, hin.2]; exact Nat.zero_lt_one⟩]
              rw [← hm, if_pos hpar, hin.2, hdivm]
            · have hpar : ¬ p % 2 = 0 := by omega
              rw [hm] at hp ⊢
              rw [hw.2,
                if_pos ⟨by omega, by rw [← hm, hin.2]; exact Nat.zero_lt_one⟩]
              rw [← hm, if_neg hpar, hin.2, hdivm]
          · have hnot : ¬ ∃ m, (p = 2 * (0 + m * numLanes)
                ∨ p = 2 * (0 + m * numLanes) + 1) ∧ 0 + m * numLanes < n / 2 := by
              intro hx
              exact hin ((paired_mem numLanes 0 (n / 2) p hs).mp hx)
            rw [laneLoop2_frame M dist2 (n / 2) numLanes 0 (engines 0) data p hnot]
            have h1 : ¬ (p < 2 * (n / 2) ∧ (p / 2) % numLanes < 0 + 1) := by
              intro hx
              exact hin ⟨hx.1, by omega⟩
            rw [if_neg h1, if_neg (by intro hx; exact hp hx.2.1)]
      · rw [if_neg hc]
        by_cases hin : p < 2 * (n / 2) ∧ (p / 2) % numLanes = L
        · obtain ⟨m, hm, hlt⟩ := (paired_mem numLanes L (n / 2) p hLlt).mpr hin
          have hw := laneLoop2_write M dist2 (n / 2) numLanes hs m L
            ((runLanes (generate_normal_lane M dist2 n numLanes) L
              (engines, data)).1 L)
            ((runLanes (generate_normal_lane M dist2 n numLanes) L
              (engines, data)).2) hlt
          have hdivm : p / 2 / numLanes = m := by
            have hdiv2 : p / 2 = L + m * numLanes := by
              rcases hm with hm | hm <;> omega
            rw [hdiv2, Nat.mul_comm, Nat.add_mul_div_left _ _ hs,
              Nat.div_eq_of_lt hLlt, Nat.zero_add]
          rcases hm with hm | hm
          · have hpar : p % 2 = 0 := by omega
            rw [hm, hw.1, ← hm, hstL]
            rw [if_pos ⟨hin.1, by rw [hin.2]; exact Nat.lt_succ_self L⟩,
              if_pos hpar, hin.2, hdivm]
          · have hpar : ¬ p % 2 = 0 := by omega
            rw [hm, hw.2, ← hm, hstL]
            rw [if_pos ⟨hin.1, by rw [hin.2]; exact Nat.lt_succ_self L⟩,
              if_neg hpar, hin.2, hdivm]
        · have hnot : ¬ ∃ m, (p = 2 * (L + m * numLanes)
              ∨ p = 2 * (L + m * numLanes) + 1) ∧ L + m * numLanes < n / 2 := by
            intro hx
            exact hin ((paired_mem numLanes L (n / 2) p hLlt).mp hx)
          rw [laneLoop2_frame M dist2 (n / 2) numLanes L _ _ p hnot]
          rw [ih (Nat.le_of_succ_le hL) p]
          by_cases h1 : p < 2 * (n / 2) ∧ (p / 2) % numLanes < L + 1
          · have hne : (p / 2) % numLanes ≠ L := fun hx => hin ⟨h1.1, hx⟩
            have h1' : p < 2 * (n / 2) ∧ (p / 2) % numLanes < L :=
              ⟨h1.1, by omega⟩
            rw [if_pos h1', if_pos h1]
          · have h1' : ¬ (p < 2 * (n / 2) ∧ (p / 2) % numLanes < L) := by
              intro hx
              exact h1 ⟨hx.1, by omega⟩
            rw [if_neg h1', if_neg h1]
            by_cases h2 : n % 2 = 1 ∧ p = n - 1 ∧ 0 < L + 1
            · have hL0 : L ≠ 0 := fun hz => hc ⟨hz, h2.1⟩
              have h2' : n % 2 = 1 ∧ p = n - 1 ∧ 0 < L :=
                ⟨h2.1, h2.2.1, by omega⟩
              rw [if_pos h2', if_pos h2]
            · have h2' : ¬ (n % 2 = 1 ∧ p = n - 1 ∧ 0 < L) := by
                intro hx
                exact h2 ⟨hx.1, hx.2.1, by omega⟩
              rw [if_neg h2', if_neg h2]

theorem init_sets_flag (M : EngineModel σ) (numLanes : ℕ)
    (g : rocrand_mrg32k3a σ) :
    (init M numLanes true g).2.m_engines_ready = true := by
  rw [init]
  by_cases h : g.m_engines_ready <;> simp [h]

theorem init_noop (M : EngineModel σ) (numLanes : ℕ) (ok : Bool)
    (g : rocrand_mrg32k3a σ) (h : g.m_engines_ready = true) :
    init M numLanes ok g = (rocrand_status.success, g) := by
  rw [init, h]
  simp

theorem init_fst_true (M : EngineModel σ) (numLanes : ℕ)
    (g : rocrand_mrg32k3a σ) :
    (init M numLanes true g).1 = rocrand_status.success := by
  rw [init]
  by_cases h : g.m_engines_ready <;> simp [h]

/-- The success path of `generate`, unfolded. -/
theorem generate_eq (M : EngineModel σ) (dist : ℕ → α) (numLanes : ℕ)
    (g : rocrand_mrg32k3a σ) (data : ℕ → α) (n : ℕ) :
    generate M numLanes true true dist g data n =
      (rocrand_status.success,
       { (init M numLanes true g).2 with
          m_engines := (generate_kernel M dist numLanes n
            (init M numLanes true g).2.m_engines data).1 },
       (generate_kernel M dist numLanes n
         (init M numLanes true g).2.m_engines data).2) := by
  rw [generate]
  simp [init_fst_true]

/-- The success path of `generate_normal`, unfolded. -/
theorem generate_normal_eq (M : EngineModel σ) (dist2 : ℕ → ℕ → α × α)
    (numLanes : ℕ) (g : rocrand_mrg32k3a σ) (data : ℕ → α) (n : ℕ) :
    generate_normal M numLanes true true dist2 g data n =
      (rocrand_status.success,
       { (init M numLanes true g).2 with
          m_engines := (generate_normal_kernel M dist2 numLanes n
            (init M numLanes true g).2.m_engines data).1 },
       (generate_normal_kernel M dist2 numLanes n
         (init M numLanes true g).2.m_engines data).2) := by
  rw [generate_normal]
  simp [init_fst_true]

/-- Output positions of a successful `generate` call, in terms of the
pool contents right after the lazy `init`. -/
theorem generate_out (M : EngineModel σ) (dist : ℕ → α) (numLanes : ℕ)
    (hs : 0 < numLanes) (g : rocrand_mrg32k3a σ) (data : ℕ → α) (n p : ℕ)
    (hp : p < n) :
    (generate M numLanes true true dist g data n).2.2 p =
      dist (drawAt M ((init M numLanes true g).2.m_engines (p % numLanes))
        (p / numLanes)) := by
  rw [generate_eq]
  show (generate_kernel M dist numLanes n
    (init M numLanes true g).2.m_engines data).2 p = _
  rw [generate_kernel_snd M dist numLanes n _ data hs p, if_pos hp]

/-- Generator state of a successful `generate` call. -/
theorem generate_gen (M : EngineModel σ) (dist : ℕ → α) (numLanes : ℕ)
    (g : rocrand_mrg32k3a σ) (data : ℕ → α) (n : ℕ) :
    (generate M numLanes true true dist g data n).2.1 =
      { (init M numLanes true g).2 with
         m_engines := (generate_kernel M dist numLanes n
           (init M numLanes true g).2.m_engines data).1 } := by
  rw [generate_eq]

/-- C4: The effective seed is never zero: constructing a generator with
seed 0, or calling `set_seed` with 0, stores the fixed default seed
constant (which is non-zero) instead of 0; any non-zero seed value is
stored exactly. -/
theorem C4_seed_never_zero (seed offset : ℕ) (mem : ℕ → σ) (d0 : ℕ → ℕ)
    (g : rocrand_mrg32k3a σ) :
    (construct seed offset mem d0).m_seed
        = (if seed = 0 then ROCRAND_MRG32K3A_DEFAULT_SEED else seed) ∧
    (set_seed g seed).m_seed
        = (if seed = 0 then ROCRAND_MRG32K3A_DEFAULT_SEED else seed) ∧
    ROCRAND_MRG32K3A_DEFAULT_SEED ≠ 0 :=
  ⟨rfl, rfl, by decide⟩

/-- C5: `init` is a no-op returning success when the pool is already
initialized; otherwise, when the launch can be scheduled, it constructs
every launched lane's state from (seed, lane, offset) and sets the flag;
when the launch cannot be scheduled it returns LaunchFailure with the
generator (flag and pool) unchanged, and a subsequent call retries
initialization. -/
theorem C5_init_spec (M : EngineModel σ) (numLanes : ℕ)
    (g : rocrand_mrg32k3a σ) :
    (g.m_engines_ready = true →
      ∀ ok, init M numLanes ok g = (rocrand_status.success, g)) ∧
    (g.m_engines_ready = false →
      (init M numLanes true g).1 = rocrand_status.success ∧
      (init M numLanes true g).2.m_engines_ready = true ∧
      (∀ i < numLanes, (init M numLanes true g).2.m_engines i
          = M.engInit g.m_seed i g.m_offset)) ∧
    (g.m_engines_ready = false →
      init M numLanes false g = (rocrand_status.launch_failure, g) ∧
      (init M numLanes true (init M numLanes false g).2).1
        = rocrand_status.success) := by
  refine ⟨fun h ok => init_noop M numLanes ok g h, fun h => ?_, fun h => ?_⟩
  · rw [init, h]
    refine ⟨rfl, rfl, fun i hi => ?_⟩
    simp [hi]
  · constructor
    · rw [init, h]
      simp
    · exact init_fst_true M numLanes _

/-- C7: `generate_poisson` first applies `set_lambda` to the cache; on
failure (cache miss with invalid lambda, status InvalidParameter) it
returns that status with generator and output buffer untouched — no
generation work; on success it dispatches the 1:1 protocol with the
cached entry's functor and returns that dispatch's result. -/
theorem C7_generate_poisson_spec (M : EngineModel σ) (numLanes : ℕ)
    (okInit okGen : Bool) (valid : ℚ → Bool) (mkDis : ℚ → ℕ → ℕ)
    (g : rocrand_mrg32k3a σ) (data : ℕ → ℕ) (n : ℕ) (lam : ℚ) :
    ((set_lambda valid mkDis g.poisson lam).1 ≠ rocrand_status.success →
      generate_poisson M numLanes okInit okGen valid mkDis g data n lam
        = ((set_lambda valid mkDis g.poisson lam).1, g, data)) ∧
    ((set_lambda valid mkDis g.poisson lam).1 = rocrand_status.success →
      generate_poisson M numLanes okInit okGen valid mkDis g data n lam
        = generate M numLanes okInit okGen
            (set_lambda valid mkDis g.poisson lam).2.dis
            { g with poisson := (set_lambda valid mkDis g.poisson lam).2 }
            data n) ∧
    (g.poisson.lambda ≠ some lam → valid lam = false →
      (set_lambda valid mkDis g.poisson lam).1
        = rocrand_status.invalid_parameter) := by
  refine ⟨fun h => ?_, fun h => ?_, fun h1 h2 => ?_⟩
  · rw [generate_poisson]
    simp [h]
  · rw [generate_poisson]
    simp [h]
  · rw [set_lambda, if_neg h1, if_neg (by simp [h2])]

/-- C2: In the 1:1 generation protocol, output slot `k < n` holds the
functor applied to the `(k/stride + 1)`-th raw draw (0-indexed:
`drawAt _ (k/stride)`) taken from lane `k % stride` since that lane's
state was loaded, where `stride` is the total number of lanes launched;
and no position at or beyond `n` is written (in particular lanes with
index `≥ n` produce no output). -/
theorem C2_one_to_one_output (M : EngineModel σ) (dist : ℕ → α)
    (numLanes n : ℕ) (engines : ℕ → σ) (data : ℕ → α)
    (hs : 0 < numLanes) (k : ℕ) (hk : k < n) :
    (generate_kernel M dist numLanes n engines data).2 k
        = dist (drawAt M (engines (k % numLanes)) (k / numLanes)) ∧
    ∀ p, n ≤ p →
      (generate_kernel M dist numLanes n engines data).2 p = data p := by
  constructor
  · rw [generate_kernel_snd M dist numLanes n engines data hs k, if_pos hk]
  · intro p hp
    rw [generate_kernel_snd M dist numLanes n engines data hs p,
      if_neg (by omega)]

/-- C8: After a 1:1 or 2:1 generation call, each launched lane's engine
slot holds exactly the loaded state advanced by the draws that lane
consumed (two per assigned pair plus the tail lane's two extra draws in
the pairing protocol), so subsequent draws from the saved state continue
the lane's substream with no raw draw repeated or skipped. -/
theorem C8_state_saved (M : EngineModel σ) (dist : ℕ → α)
    (dist2 : ℕ → ℕ → α × α) (numLanes n : ℕ) (engines : ℕ → σ)
    (data data2 : ℕ → α) (i : ℕ) (hi : i < numLanes) :
    (generate_kernel M dist numLanes n engines data).1 i
        = engSkip M (itersCount n numLanes i) (engines i) ∧
    (generate_normal_kernel M dist2 numLanes n engines data2).1 i
        = engSkip M (2 * itersCount (n / 2) numLanes i + tailDraws n i)
            (engines i) ∧
    (∀ m, drawAt M ((generate_kernel M dist numLanes n engines data).1 i) m
        = drawAt M (engines i) (m + itersCount n numLanes i)) ∧
    (∀ m,
      drawAt M ((generate_normal_kernel M dist2 numLanes n engines data2).1 i) m
        = drawAt M (engines i)
            (m + (2 * itersCount (n / 2) numLanes i + tailDraws n i))) := by
  have h1 : (generate_kernel M dist numLanes n engines data).1 i
      = engSkip M (itersCount n numLanes i) (engines i) := by
    rw [generate_kernel_fst, if_pos hi]
  have h2 : (generate_normal_kernel M dist2 numLanes n engines data2).1 i
      = engSkip M (2 * itersCount (n / 2) numLanes i + tailDraws n i)
          (engines i) := by
    rw [generate_normal_kernel, runLanes_normal_fst, if_pos hi]
  refine ⟨h1, h2, fun m => ?_, fun m => ?_⟩
  · rw [h1, drawAt_engSkip]
  · rw [h2, drawAt_engSkip]

/-- C10: Idle-lane and zero-size frame conditions: in the 1:1 kernel a
lane with index `≥ n` leaves its pool slot unchanged and no position at
or beyond `n` is written; in the pairing kernel a lane with index
`≥ n/2` other than lane 0 leaves its slot unchanged and no position
outside the paired region and the odd tail slot is written; generating
`n = 0` values changes neither the pool nor the buffer in either
kernel. -/
theorem C10_frame (M : EngineModel σ) (dist : ℕ → α) (dist2 : ℕ → ℕ → α × α)
    (numLanes n : ℕ) (engines : ℕ → σ) (data data2 : ℕ → α)
    (hs : 0 < numLanes) :
    (∀ i, n ≤ i →
      (generate_kernel M dist numLanes n engines data).1 i = engines i) ∧
    (∀ p, n ≤ p →
      (generate_kernel M dist numLanes n engines data).2 p = data p) ∧
    (∀ i, n / 2 ≤ i → i ≠ 0 →
      (generate_normal_kernel M dist2 numLanes n engines data2).1 i
        = engines i) ∧
    (∀ p, 2 * (n / 2) ≤ p → (n % 2 = 1 → p ≠ n - 1) →
      (generate_normal_kernel M dist2 numLanes n engines data2).2 p
        = data2 p) ∧
    (n = 0 →
      generate_kernel M dist numLanes n engines data = (engines, data) ∧
      generate_normal_kernel M dist2 numLanes n engines data2
        = (engines, data2)) := by
  refine ⟨fun i hi => ?_, fun p hp => ?_, fun i hi hi0 => ?_,
    fun p hp hp1 => ?_, fun hn => ⟨?_, ?_⟩⟩
  · rw [generate_kernel_fst]
    by_cases h : i < numLanes
    · rw [if_pos h, itersCount_stop _ _ _ (by omega)]
      rfl
    · rw [if_neg h]
  · rw [generate_kernel_snd M dist numLanes n engines data hs p,
      if_neg (by omega)]
  · rw [generate_normal_kernel, runLanes_normal_fst]
    by_cases h : i < numLanes
    · rw [if_pos h, itersCount_stop _ _ _ (by omega), tailDraws,
        if_neg (by intro hx; exact hi0 hx.1)]
      rfl
    · rw [if_neg h]
  · rw [generate_normal_kernel,
      runLanes_normal_snd M dist2 n numLanes engines data2 hs numLanes
        (Nat.le_refl _) p,
      if_neg (by intro hx; omega),
      if_neg (by intro hx; exact hp1 hx.1 hx.2.1)]
  · subst hn
    refine Prod.ext_iff.mpr ⟨funext fun i => ?_, funext fun p => ?_⟩
    · rw [generate_kernel_fst]
      by_cases h : i < numLanes
      · rw [if_pos h, itersCount_stop _ _ _ (by omega)]
        rfl
      · rw [if_neg h]
    · rw [generate_kernel_snd M dist numLanes 0 engines data hs p,
        if_neg (by omega)]
  · subst hn
    refine Prod.ext_iff.mpr ⟨funext fun i => ?_, funext fun p => ?_⟩
    · rw [generate_normal_kernel, runLanes_normal_fst]
      by_cases h : i < numLanes
      · rw [if_pos h, itersCount_stop _ _ _ (by omega), tailDraws,
          if_neg (by intro hx; omega)]
        rfl
      · rw [if_neg h]
    · rw [generate_normal_kernel,
        runLanes_normal_snd M dist2 0 numLanes engines data2 hs numLanes
          (Nat.le_refl _) p,
        if_neg (by intro hx; omega), if_neg (by intro hx; omega)]

/-- C3: In the 2:1 pairing protocol the main sweep covers exactly the
`⌊n/2⌋` paired positions: pair `idx < n/2` holds both components of the
functor applied to two consecutive raw draws of lane `idx % stride`;
when `n` is odd, lane 0 — after its strided sweep of
`itersCount (n/2) stride 0` pairs — consumes exactly one extra paired
draw (two raw draws) and writes only its first component to slot `n-1`;
when `n` is even lane 0 consumes no extra draw. -/
theorem C3_pairing_tail (M : EngineModel σ) (dist2 : ℕ → ℕ → α × α)
    (numLanes n : ℕ) (engines : ℕ → σ) (data : ℕ → α) (hs : 0 < numLanes) :
    (∀ idx, idx < n / 2 →
      (generate_normal_kernel M dist2 numLanes n engines data).2 (2 * idx)
          = (dist2 (drawAt M (engines (idx % numLanes)) (2 * (idx / numLanes)))
              (drawAt M (engines (idx % numLanes))
                (2 * (idx / numLanes) + 1))).1 ∧
      (generate_normal_kernel M dist2 numLanes n engines data).2 (2 * idx + 1)
          = (dist2 (drawAt M (engines (idx % numLanes)) (2 * (idx / numLanes)))
              (drawAt M (engines (idx % numLanes))
                (2 * (idx / numLanes) + 1))).2) ∧
    (n % 2 = 1 →
      (generate_normal_kernel M dist2 numLanes n engines data).2 (n - 1)
          = (dist2 (drawAt M (engines 0) (2 * itersCount (n / 2) numLanes 0))
              (drawAt M (engines 0)
                (2 * itersCount (n / 2) numLanes 0 + 1))).1 ∧
      (generate_normal_kernel M dist2 numLanes n engines data).1 0
          = engSkip M (2 * itersCount (n / 2) numLanes 0 + 2) (engines 0)) ∧
    (n % 2 = 0 →
      (generate_normal_kernel M dist2 numLanes n engines data).1 0
          = engSkip M (2 * itersCount (n / 2) numLanes 0) (engines 0)) := by
  refine ⟨fun idx hidx => ⟨?_, ?_⟩, fun hodd => ⟨?_, ?_⟩, fun heven => ?_⟩
  · rw [generate_normal_kernel,
      runLanes_normal_snd M dist2 n numLanes engines data hs numLanes
        (Nat.le_refl _) (2 * idx),
      show 2 * idx / 2 = idx from by omega]
    rw [if_pos ⟨by omega, Nat.mod_lt _ hs⟩, if_pos (by omega)]
  · rw [generate_normal_kernel,
      runLanes_normal_snd M dist2 n numLanes engines data hs numLanes
        (Nat.le_refl _) (2 * idx + 1),
      show (2 * idx + 1) / 2 = idx from by omega]
    rw [if_pos ⟨by omega, Nat.mod_lt _ hs⟩, if_neg (by omega)]
  · rw [generate_normal_kernel,
      runLanes_normal_snd M dist2 n numLanes engines data hs numLanes
        (Nat.le_refl _) (n - 1),
      if_neg (by intro hx; omega), if_pos ⟨hodd, rfl, hs⟩]
  · rw [generate_normal_kernel, runLanes_normal_fst, if_pos hs, tailDraws,
      if_pos ⟨rfl, hodd⟩]
  · rw [generate_normal_kernel, runLanes_normal_fst, if_pos hs, tailDraws,
      if_neg (by intro hx; omega)]
    rfl

theorem itersCount_shift (s : ℕ) (hs : 0 < s) :
    ∀ fuel n i, n ≤ i + fuel →
      itersCount (n + s) s (i + s) = itersCount n s i := by
  intro fuel
  induction fuel with
  | zero =>
      intro n i h
      rw [itersCount_stop _ _ _ (by omega), itersCount_stop _ _ _ (by omega)]
  | succ fuel ih =>
      intro n i h
      by_cases hlt : i < n
      · rw [itersCount_step (n + s) s (i + s) (by omega) hs,
          itersCount_step n s i hlt hs, ih n (i + s) (by omega)]
      · rw [itersCount_stop _ _ _ (by omega), itersCount_stop _ _ _ (by omega)]

/-- A lane below the stride is assigned exactly `q` positions when the
output size is `q` full strides. -/
theorem itersCount_mul (s : ℕ) (hs : 0 < s) (q i : ℕ) (hi : i < s) :
    itersCount (q * s) s i = q := by
  induction q with
  | zero =>
      rw [Nat.zero_mul, itersCount_stop _ _ _ (by omega)]
  | succ q ih =>
      have hle : s ≤ (q + 1) * s := Nat.le_mul_of_pos_left s (Nat.succ_pos q)
      rw [itersCount_step _ _ _ (by omega) hs, Nat.succ_mul,
        itersCount_shift s hs (q * s) (q * s) i (by omega), ih]

/-- C1 counterexample: with 2 lanes, a single call of size 2 and a split
into two calls of sizes 1 and 1 (same generator state, no reset)
disagree at output position 1 — the single call takes it from lane 1's
first draw, the split's second call from lane 0's second draw. -/
theorem C1_counterexample :
    ¬ ((generate toyEngine 2 true true (fun x => x)
          (construct 1 0 (fun _ => ((0 : ℕ), (0 : ℕ))) (fun x => x))
          (fun _ => 0) 2).2.2 1
        = (generate toyEngine 2 true true (fun x => x)
            (generate toyEngine 2 true true (fun x => x)
              (construct 1 0 (fun _ => ((0 : ℕ), (0 : ℕ))) (fun x => x))
              (fun _ => 0) 1).2.1
            (fun _ => 0) 1).2.2 0) := by
  simp [generate, init, construct, generate_kernel, runLanes, generate_lane,
    laneLoop, toyEngine, Function.update]

/-- C1 (amended): generating `n` values in one call and split across two
consecutive calls of sizes `k` and `n-k` (same seed, offset, lane count,
no intervening reset) yields identical concatenated output for every
split point `k` that is a multiple of the lane count, and for `k = n`;
for other split points the outputs differ (see the counterexample)
because position `k` is assigned to lane `k % stride` in the single call
but to lane 0 in the split's second call. -/
theorem C1_split_concat (M : EngineModel σ) (dist : ℕ → α) (numLanes : ℕ)
    (hs : 0 < numLanes) (g : rocrand_mrg32k3a σ) (n k : ℕ) (hk : k ≤ n)
    (hdvd : k % numLanes = 0 ∨ k = n) (dA dB dC : ℕ → α) :
    ∀ p < n,
      (generate M numLanes true true dist g dA n).2.2 p =
        (if p < k then (generate M numLanes true true dist g dB k).2.2 p
         else (generate M numLanes true true dist
             (generate M numLanes true true dist g dB k).2.1 dC (n - k)).2.2
           (p - k)) := by
  intro p hp
  rw [generate_out M dist numLanes hs g dA n p hp]
  by_cases hpk : p < k
  · rw [if_pos hpk, generate_out M dist numLanes hs g dB k p hpk]
  · rw [if_neg hpk]
    have hks : k % numLanes = 0 := by
      rcases hdvd with h | h
      · exact h
      · omega
    have hq : p - k < n - k := by omega
    have hflag : (generate M numLanes true true dist g dB k).2.1.m_engines_ready
        = true := by
      rw [generate_gen]
      exact init_sets_flag M numLanes g
    rw [generate_out M dist numLanes hs _ dC (n - k) (p - k) hq,
      init_noop M numLanes true _ hflag, generate_gen]
    show dist (drawAt M
        ((init M numLanes true g).2.m_engines (p % numLanes)) (p / numLanes))
      = dist (drawAt M
          ((generate_kernel M dist numLanes k
            (init M numLanes true g).2.m_engines dB).1 ((p - k) % numLanes))
          ((p - k) / numLanes))
    rw [generate_kernel_fst, if_pos (Nat.mod_lt _ hs)]
    have hdk : numLanes * (k / numLanes) = k :=
      Nat.mul_div_cancel' (Nat.dvd_of_mod_eq_zero hks)
    have hiters : ∀ j, j < numLanes →
        itersCount k numLanes j = k / numLanes := by
      intro j hj
      conv_lhs => rw [← hdk, Nat.mul_comm]
      exact itersCount_mul numLanes hs (k / numLanes) j hj
    rw [hiters _ (Nat.mod_lt _ hs), drawAt_engSkip]
    have hmod : p % numLanes = (p - k) % numLanes := by
      conv_lhs => rw [show p = k + (p - k) from by omega, ← hdk]
      rw [Nat.mul_add_mod, hdk]
    have hdiv : p / numLanes = (p - k) / numLanes + k / numLanes := by
      conv_lhs => rw [show p = k + (p - k) from by omega, ← hdk]
      rw [Nat.mul_add_div hs, Nat.add_comm, hdk]
    rw [hmod, hdiv]

theorem init_derived (M : EngineModel σ) (s : ℕ) (ok : Bool)
    (g : rocrand_mrg32k3a σ)
    (hg : g.m_engines_ready = true → laneDerived M s g) :
    (init M s ok g).2.m_engines_ready = true →
      laneDerived M s (init M s ok g).2 := by
  rw [init]
  by_cases h : g.m_engines_ready = true
  · simp only [h, if_true]
    exact fun _ => hg h
  · simp only [h, if_false, Bool.false_eq_true]
    cases ok with
    | false =>
        simp only [Bool.false_eq_true, if_false]
        exact hg
    | true =>
        simp only [if_true]
        intro _ i hi
        refine ⟨0, ?_⟩
        show (if i < s then M.engInit g.m_seed i g.m_offset
          else g.m_engines i) = _
        rw [if_pos hi]
        rfl

theorem kernel_derived (M : EngineModel σ) (dist : ℕ → α) (s n : ℕ)
    (g1 : rocrand_mrg32k3a σ) (data : ℕ → α) (h : laneDerived M s g1) :
    laneDerived M s
      { g1 with m_engines := (generate_kernel M dist s n g1.m_engines data).1 } := by
  intro i hi
  obtain ⟨d, hd⟩ := h i hi
  refine ⟨itersCount n s i + d, ?_⟩
  show (generate_kernel M dist s n g1.m_engines data).1 i
    = engSkip M (itersCount n s i + d) (M.engInit g1.m_seed i g1.m_offset)
  rw [generate_kernel_fst, if_pos hi, hd, ← engSkip_add]

theorem normal_kernel_derived (M : EngineModel σ) (dist2 : ℕ → ℕ → α × α)
    (s n : ℕ) (g1 : rocrand_mrg32k3a σ) (data : ℕ → α)
    (h : laneDerived M s g1) :
    laneDerived M s
      { g1 with
        m_engines := (generate_normal_kernel M dist2 s n g1.m_engines data).1 } := by
  intro i hi
  obtain ⟨d, hd⟩ := h i hi
  refine ⟨2 * itersCount (n / 2) s i + tailDraws n i + d, ?_⟩
  show (generate_normal_kernel M dist2 s n g1.m_engines data).1 i
    = engSkip M (2 * itersCount (n / 2) s i + tailDraws n i + d)
        (M.engInit g1.m_seed i g1.m_offset)
  rw [generate_normal_kernel, runLanes_normal_fst, if_pos hi, hd,
    ← engSkip_add]

theorem generate_preserves_derived (M : EngineModel σ) (s : ℕ)
    (okI okG : Bool) (dist : ℕ → α) (g : rocrand_mrg32k3a σ) (data : ℕ → α)
    (n : ℕ) (hg : g.m_engines_ready = true → laneDerived M s g) :
    (generate M s okI okG dist g data n).2.1.m_engines_ready = true →
      laneDerived M s (generate M s okI okG dist g data n).2.1 := by
  rw [generate]
  by_cases h1 : (init M s okI g).1 ≠ rocrand_status.success
  · simp only [if_pos h1]
    exact init_derived M s okI g hg
  · simp only [if_neg h1]
    cases okG with
    | false =>
        simp only [Bool.false_eq_true, if_false]
        exact init_derived M s okI g hg
    | true =>
        simp only [if_true]
        intro hx
        exact kernel_derived M dist s n (init M s okI g).2 data
          (init_derived M s okI g hg hx)

theorem generate_normal_preserves_derived (M : EngineModel σ) (s : ℕ)
    (okI okG : Bool) (dist2 : ℕ → ℕ → α × α) (g : rocrand_mrg32k3a σ)
    (data : ℕ → α) (n : ℕ)
    (hg : g.m_engines_ready = true → laneDerived M s g) :
    (generate_normal M s okI okG dist2 g data n).2.1.m_engines_ready = true →
      laneDerived M s (generate_normal M s okI okG dist2 g data n).2.1 := by
  rw [generate_normal]
  by_cases h1 : (init M s okI g).1 ≠ rocrand_status.success
  · simp only [if_pos h1]
    exact init_derived M s okI g hg
  · simp only [if_neg h1]
    cases okG with
    | false =>
        simp only [Bool.false_eq_true, if_false]
        exact init_derived M s okI g hg
    | true =>
        simp only [if_true]
        intro hx
        exact normal_kernel_derived M dist2 s n (init M s okI g).2 data
          (init_derived M s okI g hg hx)

theorem generate_poisson_preserves_derived (M : EngineModel σ) (s : ℕ)
    (okI okG : Bool) (valid : ℚ → Bool) (mkDis : ℚ → ℕ → ℕ)
    (g : rocrand_mrg32k3a σ) (data : ℕ → ℕ) (n : ℕ) (lam : ℚ)
    (hg : g.m_engines_ready = true → laneDerived M s g) :
    (generate_poisson M s okI okG valid mkDis g data n lam).2.1.m_engines_ready
        = true →
      laneDerived M s
        (generate_poisson M s okI okG valid mkDis g data n lam).2.1 := by
  rw [generate_poisson]
  by_cases h : (set_lambda valid mkDis g.poisson lam).1 ≠ rocrand_status.success
  · simp only [if_pos h]
    exact hg
  · simp only [if_neg h]
    exact generate_preserves_derived M s okI okG
      (set_lambda valid mkDis g.poisson lam).2.dis
      { g with poisson := (set_lambda valid mkDis g.poisson lam).2 } data n hg

/-- C6: `set_seed` and `set_offset` clear the initialization flag without
touching the pool storage, `reset` clears the flag without changing seed
or offset, and consequently in every reachable generator state the flag
is true only when every launched lane's state is derived (by some number
of draws) from the per-lane construction at the current (seed, offset)
pair. -/
theorem C6_invalidation_invariant (M : EngineModel σ) (numLanes : ℕ)
    (g : rocrand_mrg32k3a σ) (seed offset : ℕ) :
    ((set_seed g seed).m_engines_ready = false ∧
     (set_seed g seed).m_engines = g.m_engines ∧
     (set_seed g seed).m_engines_size = g.m_engines_size ∧
     (set_offset g offset).m_engines_ready = false ∧
     (set_offset g offset).m_engines = g.m_engines ∧
     (set_offset g offset).m_engines_size = g.m_engines_size ∧
     (reset g).m_engines_ready = false ∧
     (reset g).m_seed = g.m_seed ∧ (reset g).m_offset = g.m_offset ∧
     (reset g).m_engines = g.m_engines) ∧
    ∀ g1 : rocrand_mrg32k3a σ, Reachable M numLanes g1 →
      g1.m_engines_ready = true → laneDerived M numLanes g1 := by
  constructor
  · exact ⟨rfl, rfl, rfl, rfl, rfl, rfl, rfl, rfl, rfl, rfl⟩
  · intro g1 hreach
    induction hreach with
    | construct_ok seed' offset' mem d0 =>
        intro hx
        simp [construct] at hx
    | reset_step g2 hr ih =>
        intro hx
        simp [reset] at hx
    | set_seed_step g2 seed' hr ih =>
        intro hx
        simp [set_seed] at hx
    | set_offset_step g2 offset' hr ih =>
        intro hx
        simp [set_offset] at hx
    | init_step g2 ok hr ih =>
        exact init_derived M numLanes ok g2 ih
    | generate_step α dist g2 data n okI okG hr ih =>
        exact generate_preserves_derived M numLanes okI okG dist g2 data n ih
    | generate_normal_step α dist2 g2 data n okI okG hr ih =>
        exact generate_normal_preserves_derived M numLanes okI okG dist2 g2
          data n ih
    | generate_poisson_step valid mkDis g2 data n lam okI okG hr ih =>
        exact generate_poisson_preserves_derived M numLanes okI okG valid
          mkDis g2 data n lam ih

theorem init_run (M : EngineModel σ) (s : ℕ) (g : rocrand_mrg32k3a σ)
    (h : ¬ g.m_engines_ready = true) :
    init M s true g = (rocrand_status.success,
      { g with
         m_engines := fun i => if i < s then M.engInit g.m_seed i g.m_offset
           else g.m_engines i
         m_engines_ready := true }) := by
  rw [init, if_neg h]
  rfl

theorem init_agree (M : EngineModel σ) (s : ℕ) (g1 g2 : rocrand_mrg32k3a σ)
    (h : gAgree s g1 g2) :
    gAgree s (init M s true g1).2 (init M s true g2).2 ∧
    ∀ i < s, (init M s true g1).2.m_engines i
        = (init M s true g2).2.m_engines i := by
  obtain ⟨hseed, hoff, hflag, hpoi, heng⟩ := h
  by_cases hr : g1.m_engines_ready = true
  · have hr2 : g2.m_engines_ready = true := by rw [← hflag]; exact hr
    rw [init_noop M s true g1 hr, init_noop M s true g2 hr2]
    exact ⟨⟨hseed, hoff, hflag, hpoi, heng⟩, heng hr⟩
  · have hr2 : ¬ g2.m_engines_ready = true := by rw [← hflag]; exact hr
    rw [init_run M s g1 hr, init_run M s g2 hr2]
    constructor
    · refine ⟨hseed, hoff, rfl, hpoi, fun _ i hi => ?_⟩
      show (if i < s then M.engInit g1.m_seed i g1.m_offset else g1.m_engines i)
        = (if i < s then M.engInit g2.m_seed i g2.m_offset else g2.m_engines i)
      rw [if_pos hi, if_pos hi, hseed, hoff]
    · intro i hi
      show (if i < s then M.engInit g1.m_seed i g1.m_offset else g1.m_engines i)
        = (if i < s then M.engInit g2.m_seed i g2.m_offset else g2.m_engines i)
      rw [if_pos hi, if_pos hi, hseed, hoff]

theorem generate_agree (M : EngineModel σ) (s : ℕ) (hs : 0 < s)
    (dist : ℕ → α) (g1 g2 : rocrand_mrg32k3a σ) (b1 b2 : ℕ → α) (n : ℕ)
    (h : gAgree s g1 g2) :
    gAgree s (generate M s true true dist g1 b1 n).2.1
      (generate M s true true dist g2 b2 n).2.1 ∧
    ∀ p < n, (generate M s true true dist g1 b1 n).2.2 p
        = (generate M s true true dist g2 b2 n).2.2 p := by
  obtain ⟨hag, heng⟩ := init_agree M s g1 g2 h
  constructor
  · rw [generate_gen, generate_gen]
    refine ⟨hag.1, hag.2.1, hag.2.2.1, hag.2.2.2.1, fun _ i hi => ?_⟩
    show (generate_kernel M dist s n (init M s true g1).2.m_engines b1).1 i
      = (generate_kernel M dist s n (init M s true g2).2.m_engines b2).1 i
    rw [generate_kernel_fst, generate_kernel_fst, if_pos hi, if_pos hi,
      heng i hi]
  · intro p hp
    rw [generate_out M dist s hs g1 b1 n p hp,
      generate_out M dist s hs g2 b2 n p hp, heng _ (Nat.mod_lt _ hs)]

/-- Generator state of a successful `generate_normal` call. -/
theorem generate_normal_gen (M : EngineModel σ) (dist2 : ℕ → ℕ → α × α)
    (numLanes : ℕ) (g : rocrand_mrg32k3a σ) (data : ℕ → α) (n : ℕ) :
    (generate_normal M numLanes true true dist2 g data n).2.1 =
      { (init M numLanes true g).2 with
         m_engines := (generate_normal_kernel M dist2 numLanes n
           (init M numLanes true g).2.m_engines data).1 } := by
  rw [generate_normal_eq]

theorem normal_kernel_out_agree (M : EngineModel σ) (dist2 : ℕ → ℕ → α × α)
    (s n : ℕ) (hs : 0 < s) (e1 e2 : ℕ → σ) (b1 b2 : ℕ → α)
    (he : ∀ i < s, e1 i = e2 i) :
    ∀ p < n, (generate_normal_kernel M dist2 s n e1 b1).2 p
        = (generate_normal_kernel M dist2 s n e2 b2).2 p := by
  intro p hp
  rw [generate_normal_kernel, generate_normal_kernel,
    runLanes_normal_snd M dist2 n s e1 b1 hs s (Nat.le_refl _) p,
    runLanes_normal_snd M dist2 n s e2 b2 hs s (Nat.le_refl _) p]
  have hm : (p / 2) % s < s := Nat.mod_lt _ hs
  by_cases h1 : p < 2 * (n / 2) ∧ (p / 2) % s < s
  · rw [if_pos h1, if_pos h1, he _ hm]
  · have hnp : ¬ p < 2 * (n / 2) := fun hx => h1 ⟨hx, hm⟩
    rw [if_neg h1, if_neg h1]
    have h2 : n % 2 = 1 ∧ p = n - 1 ∧ 0 < s := ⟨by omega, by omega, hs⟩
    rw [if_pos h2, if_pos h2, he 0 hs]

theorem generate_normal_agree (M : EngineModel σ) (s : ℕ) (hs : 0 < s)
    (dist2 : ℕ → ℕ → α × α) (g1 g2 : rocrand_mrg32k3a σ) (b1 b2 : ℕ → α)
    (n : ℕ) (h : gAgree s g1 g2) :
    gAgree s (generate_normal M s true true dist2 g1 b1 n).2.1
      (generate_normal M s true true dist2 g2 b2 n).2.1 ∧
    ∀ p < n, (generate_normal M s true true dist2 g1 b1 n).2.2 p
        = (generate_normal M s true true dist2 g2 b2 n).2.2 p := by
  obtain ⟨hag, heng⟩ := init_agree M s g1 g2 h
  constructor
  · rw [generate_normal_gen, generate_normal_gen]
    refine ⟨hag.1, hag.2.1, hag.2.2.1, hag.2.2.2.1, fun _ i hi => ?_⟩
    show (generate_normal_kernel M dist2 s n
        (init M s true g1).2.m_engines b1).1 i
      = (generate_normal_kernel M dist2 s n
          (init M s true g2).2.m_engines b2).1 i
    rw [generate_normal_kernel, generate_normal_kernel,
      runLanes_normal_fst, runLanes_normal_fst, if_pos hi, if_pos hi,
      heng i hi]
  · intro p hp
    rw [generate_normal_eq, generate_normal_eq]
    exact normal_kernel_out_agree M dist2 s n hs _ _ b1 b2 heng p hp

theorem generate_poisson_ok (M : EngineModel σ) (s : ℕ) (okI okG : Bool)
    (valid : ℚ → Bool) (mkDis : ℚ → ℕ → ℕ) (g : rocrand_mrg32k3a σ)
    (data : ℕ → ℕ) (n : ℕ) (lam : ℚ)
    (h : (set_lambda valid mkDis g.poisson lam).1 = rocrand_status.success) :
    generate_poisson M s okI okG valid mkDis g data n lam
      = generate M s okI okG (set_lambda valid mkDis g.poisson lam).2.dis
          { g with poisson := (set_lambda valid mkDis g.poisson lam).2 }
          data n := by
  rw [generate_poisson]
  simp [h]

theorem set_lambda_ok (valid : ℚ → Bool) (mkDis : ℚ → ℕ → ℕ)
    (p : PoissonManager) (lam : ℚ) (hval : valid lam = true) :
    (set_lambda valid mkDis p lam).1 = rocrand_status.success := by
  rw [set_lambda]
  by_cases hcl : p.lambda = some lam
  · rw [if_pos hcl]
  · rw [if_neg hcl, if_pos hval]

theorem generate_poisson_agree (M : EngineModel σ) (s : ℕ) (hs : 0 < s)
    (valid : ℚ → Bool) (mkDis : ℚ → ℕ → ℕ) (g1 g2 : rocrand_mrg32k3a σ)
    (b1 b2 : ℕ → ℕ) (n : ℕ) (lam : ℚ) (h : gAgree s g1 g2)
    (hval : valid lam = true) :
    gAgree s (generate_poisson M s true true valid mkDis g1 b1 n lam).2.1
      (generate_poisson M s true true valid mkDis g2 b2 n lam).2.1 ∧
    ∀ p < n, (generate_poisson M s true true valid mkDis g1 b1 n lam).2.2 p
        = (generate_poisson M s true true valid mkDis g2 b2 n lam).2.2 p := by
  have hpoi : g1.poisson = g2.poisson := h.2.2.2.1
  rw [generate_poisson_ok M s true true valid mkDis g1 b1 n lam
      (set_lambda_ok valid mkDis g1.poisson lam hval),
    generate_poisson_ok M s true true valid mkDis g2 b2 n lam
      (set_lambda_ok valid mkDis g2.poisson lam hval), hpoi]
  exact generate_agree M s hs _ _ _ b1 b2 n
    ⟨h.1, h.2.1, h.2.2.1, rfl, h.2.2.2.2⟩

theorem runCall_agree (M : EngineModel σ) (s : ℕ) (hs : 0 < s)
    (dist : ℕ → ℕ) (dist2 : ℕ → ℕ → ℕ × ℕ) (valid : ℚ → Bool)
    (mkDis : ℚ → ℕ → ℕ) (g1 g2 : rocrand_mrg32k3a σ) (c : GenCall)
    (b1 b2 : ℕ → ℕ) (h : gAgree s g1 g2)
    (hval : ∀ n lam, c = GenCall.poissonCall n lam → valid lam = true) :
    gAgree s (runCall M s dist dist2 valid mkDis g1 c b1).1
      (runCall M s dist dist2 valid mkDis g2 c b2).1 ∧
    (runCall M s dist dist2 valid mkDis g1 c b1).2
      = (runCall M s dist dist2 valid mkDis g2 c b2).2 := by
  cases c with
  | uniform n =>
      obtain ⟨ha, hout⟩ := generate_agree M s hs dist g1 g2 b1 b2 n h
      refine ⟨ha, ?_⟩
      show (List.range n).map _ = (List.range n).map _
      exact List.map_congr_left fun p hp => hout p (List.mem_range.mp hp)
  | normalCall n =>
      obtain ⟨ha, hout⟩ := generate_normal_agree M s hs dist2 g1 g2 b1 b2 n h
      refine ⟨ha, ?_⟩
      show (List.range n).map _ = (List.range n).map _
      exact List.map_congr_left fun p hp => hout p (List.mem_range.mp hp)
  | poissonCall n lam =>
      obtain ⟨ha, hout⟩ := generate_poisson_agree M s hs valid mkDis g1 g2
        b1 b2 n lam h (hval n lam rfl)
      refine ⟨ha, ?_⟩
      show (List.range n).map _ = (List.range n).map _
      exact List.map_congr_left fun p hp => hout p (List.mem_range.mp hp)

theorem runSeq_agree (M : EngineModel σ) (s : ℕ) (hs : 0 < s)
    (dist : ℕ → ℕ) (dist2 : ℕ → ℕ → ℕ × ℕ) (valid : ℚ → Bool)
    (mkDis : ℚ → ℕ → ℕ) :
    ∀ (calls : List GenCall) (g1 g2 : rocrand_mrg32k3a σ)
      (b1 b2 : ℕ → ℕ → ℕ), gAgree s g1 g2 →
      (∀ n lam, GenCall.poissonCall n lam ∈ calls → valid lam = true) →
      runSeq M s dist dist2 valid mkDis g1 calls b1
        = runSeq M s dist dist2 valid mkDis g2 calls b2 := by
  intro calls
  induction calls with
  | nil => intro g1 g2 b1 b2 _ _; rfl
  | cons c rest ih =>
      intro g1 g2 b1 b2 h hval
      obtain ⟨ha, hout⟩ := runCall_agree M s hs dist dist2 valid mkDis g1 g2
        c (b1 0) (b2 0) h
        (fun n lam hc => hval n lam (hc ▸ List.mem_cons_self c rest))
      show (runCall M s dist dist2 valid mkDis g1 c (b1 0)).2 :: _
        = (runCall M s dist dist2 valid mkDis g2 c (b2 0)).2 :: _
      rw [hout,
        ih _ _ _ _ ha (fun n lam hm => hval n lam (List.mem_cons_of_mem c hm))]

/-- C9: Determinism: two independent runs with the same seed, offset,
lane count, distribution parameters and call sequence — but arbitrary,
run-dependent garbage in the freshly allocated pool memory and in each
call's output buffer — record bit-identical output sequences for every
call (all Poisson lambdas in range, all launches scheduled). -/
theorem C9_determinism (M : EngineModel σ) (numLanes : ℕ) (hs : 0 < numLanes)
    (dist : ℕ → ℕ) (dist2 : ℕ → ℕ → ℕ × ℕ) (valid : ℚ → Bool)
    (mkDis : ℚ → ℕ → ℕ) (seed offset : ℕ) (calls : List GenCall)
    (mem1 mem2 : ℕ → σ) (d0 : ℕ → ℕ) (bufs1 bufs2 : ℕ → ℕ → ℕ)
    (hval : ∀ n lam, GenCall.poissonCall n lam ∈ calls → valid lam = true) :
    runSeq M numLanes dist dist2 valid mkDis (construct seed offset mem1 d0)
        calls bufs1
      = runSeq M numLanes dist dist2 valid mkDis
          (construct seed offset mem2 d0) calls bufs2 := by
  refine runSeq_agree M numLanes hs dist dist2 valid mkDis calls _ _
    bufs1 bufs2 ⟨rfl, rfl, rfl, rfl, fun hx => ?_⟩ hval
  simp [construct] at hx

/-- Witness for C4 at seed 0 (remapped) on a generator with seed 3. -/
theorem C4_seed_never_zero_witness :
    (construct 0 0 (fun _ => ((0 : ℕ), (0 : ℕ))) (fun x => x)).m_seed
        = (if 0 = 0 then ROCRAND_MRG32K3A_DEFAULT_SEED else 0) ∧
    (set_seed (construct 3 0 (fun _ => ((0 : ℕ), (0 : ℕ))) (fun x => x))
        0).m_seed
        = (if 0 = 0 then ROCRAND_MRG32K3A_DEFAULT_SEED else 0) ∧
    ROCRAND_MRG32K3A_DEFAULT_SEED ≠ 0 :=
  C4_seed_never_zero 0 0 (fun _ => ((0 : ℕ), (0 : ℕ))) (fun x => x)
    (construct 3 0 (fun _ => ((0 : ℕ), (0 : ℕ))) (fun x => x))

/-- Witness for C5 on a freshly constructed (hence uninitialized)
generator with 2 lanes: the failed-launch path leaves it unchanged and a
retry succeeds. -/
theorem C5_init_spec_witness :
    (construct 1 0 (fun _ => ((0 : ℕ), (0 : ℕ)))
        (fun x => x)).m_engines_ready = false ∧
    (init toyEngine 2 false
        (construct 1 0 (fun _ => ((0 : ℕ), (0 : ℕ))) (fun x => x))
      = (rocrand_status.launch_failure,
         construct 1 0 (fun _ => ((0 : ℕ), (0 : ℕ))) (fun x => x)) ∧
     (init toyEngine 2 true
        (init toyEngine 2 false
          (construct 1 0 (fun _ => ((0 : ℕ), (0 : ℕ))) (fun x => x))).2).1
       = rocrand_status.success) :=
  ⟨rfl,
   (C5_init_spec toyEngine 2
     (construct 1 0 (fun _ => ((0 : ℕ), (0 : ℕ))) (fun x => x))).2.2 rfl⟩

/-- Witness for C7: an invalid lambda on a cache with no entry is
rejected with InvalidParameter and nothing is generated. -/
theorem C7_generate_poisson_spec_witness :
    ((set_lambda (fun _ => false) (fun _ x => x)
        (construct 1 0 (fun _ => ((0 : ℕ), (0 : ℕ))) (fun x => x)).poisson
        1).1 ≠ rocrand_status.success) ∧
    generate_poisson toyEngine 2 true true (fun _ => false) (fun _ x => x)
        (construct 1 0 (fun _ => ((0 : ℕ), (0 : ℕ))) (fun x => x))
        (fun _ => 0) 3 1
      = ((set_lambda (fun _ => false) (fun _ x => x)
            (construct 1 0 (fun _ => ((0 : ℕ), (0 : ℕ))) (fun x => x)).poisson
            1).1,
         construct 1 0 (fun _ => ((0 : ℕ), (0 : ℕ))) (fun x => x),
         fun _ => 0) :=
  ⟨by decide,
   (C7_generate_poisson_spec toyEngine 2 true true (fun _ => false)
     (fun _ x => x) (construct 1 0 (fun _ => ((0 : ℕ), (0 : ℕ))) (fun x => x))
     (fun _ => 0) 3 1).1 (by decide)⟩

/-- Witness for C2 with 2 lanes, n = 3, output slot 2. -/
theorem C2_one_to_one_output_witness :
    (0 < 2 ∧ 2 < 3) ∧
    ((generate_kernel toyEngine (fun x => x) 2 3 (fun i => (i, 0))
        (fun _ => 99)).2 2
      = drawAt toyEngine (2 % 2, 0) (2 / 2) ∧
     ∀ p, 3 ≤ p →
       (generate_kernel toyEngine (fun x => x) 2 3 (fun i => (i, 0))
         (fun _ => 99)).2 p = 99) :=
  ⟨⟨by decide, by decide⟩,
   C2_one_to_one_output toyEngine (fun x => x) 2 3 (fun i => (i, 0))
     (fun _ => 99) (by decide) 2 (by decide)⟩

/-- Witness for C8 with 2 lanes, n = 5, lane 0, both kernels. -/
theorem C8_state_saved_witness :
    0 < 2 ∧
    ((generate_kernel toyEngine (fun x => x) 2 5 (fun i => (i, 0))
        (fun _ => 99)).1 0
      = engSkip toyEngine (itersCount 5 2 0) (0, 0) ∧
     (generate_normal_kernel toyEngine (fun a b => (a, b)) 2 5
        (fun i => (i, 0)) (fun _ => 99)).1 0
      = engSkip toyEngine (2 * itersCount (5 / 2) 2 0 + tailDraws 5 0)
          (0, 0) ∧
     (∀ m, drawAt toyEngine
        ((generate_kernel toyEngine (fun x => x) 2 5 (fun i => (i, 0))
          (fun _ => 99)).1 0) m
        = drawAt toyEngine (0, 0) (m + itersCount 5 2 0)) ∧
     (∀ m, drawAt toyEngine
        ((generate_normal_kernel toyEngine (fun a b => (a, b)) 2 5
          (fun i => (i, 0)) (fun _ => 99)).1 0) m
        = drawAt toyEngine (0, 0)
            (m + (2 * itersCount (5 / 2) 2 0 + tailDraws 5 0)))) :=
  ⟨by decide,
   C8_state_saved toyEngine (fun x => x) (fun a b => (a, b)) 2 5
     (fun i => (i, 0)) (fun _ => 99) (fun _ => 99) 0 (by decide)⟩

/-- Witness for C10 with 2 lanes, n = 3. -/
theorem C10_frame_witness :
    0 < 2 ∧
    ((∀ i, 3 ≤ i →
       (generate_kernel toyEngine (fun x => x) 2 3 (fun j => (j, 0))
         (fun _ => 7)).1 i = (i, 0)) ∧
     (∀ p, 3 ≤ p →
       (generate_kernel toyEngine (fun x => x) 2 3 (fun j => (j, 0))
         (fun _ => 7)).2 p = 7) ∧
     (∀ i, 3 / 2 ≤ i → i ≠ 0 →
       (generate_normal_kernel toyEngine (fun a b => (a, b)) 2 3
         (fun j => (j, 0)) (fun _ => 8)).1 i = (i, 0)) ∧
     (∀ p, 2 * (3 / 2) ≤ p → (3 % 2 = 1 → p ≠ 3 - 1) →
       (generate_normal_kernel toyEngine (fun a b => (a, b)) 2 3
         (fun j => (j, 0)) (fun _ => 8)).2 p = 8) ∧
     (3 = 0 →
       generate_kernel toyEngine (fun x => x) 2 3 (fun j => (j, 0))
         (fun _ => 7) = (fun j => (j, 0), fun _ => 7) ∧
       generate_normal_kernel toyEngine (fun a b => (a, b)) 2 3
         (fun j => (j, 0)) (fun _ => 8) = (fun j => (j, 0), fun _ => 8))) :=
  ⟨by decide,
   C10_frame toyEngine (fun x => x) (fun a b => (a, b)) 2 3 (fun j => (j, 0))
     (fun _ => 7) (fun _ => 8) (by decide)⟩

/-- Witness for C3 with 2 lanes and odd n = 5. -/
theorem C3_pairing_tail_witness :
    0 < 2 ∧
    ((∀ idx, idx < 5 / 2 →
       (generate_normal_kernel toyEngine (fun a b => (a, b)) 2 5
          (fun i => (i, 0)) (fun _ => 99)).2 (2 * idx)
           = (drawAt toyEngine (idx % 2, 0) (2 * (idx / 2)),
              drawAt toyEngine (idx % 2, 0) (2 * (idx / 2) + 1)).1 ∧
       (generate_normal_kernel toyEngine (fun a b => (a, b)) 2 5
          (fun i => (i, 0)) (fun _ => 99)).2 (2 * idx + 1)
           = (drawAt toyEngine (idx % 2, 0) (2 * (idx / 2)),
              drawAt toyEngine (idx % 2, 0) (2 * (idx / 2) + 1)).2) ∧
     (5 % 2 = 1 →
       (generate_normal_kernel toyEngine (fun a b => (a, b)) 2 5
          (fun i => (i, 0)) (fun _ => 99)).2 (5 - 1)
           = (drawAt toyEngine (0, 0) (2 * itersCount (5 / 2) 2 0),
              drawAt toyEngine (0, 0) (2 * itersCount (5 / 2) 2 0 + 1)).1 ∧
       (generate_normal_kernel toyEngine (fun a b => (a, b)) 2 5
          (fun i => (i, 0)) (fun _ => 99)).1 0
           = engSkip toyEngine (2 * itersCount (5 / 2) 2 0 + 2) (0, 0)) ∧
     (5 % 2 = 0 →
       (generate_normal_kernel toyEngine (fun a b => (a, b)) 2 5
          (fun i => (i, 0)) (fun _ => 99)).1 0
           = engSkip toyEngine (2 * itersCount (5 / 2) 2 0) (0, 0))) :=
  ⟨by decide,
   C3_pairing_tail toyEngine (fun a b => (a, b)) 2 5 (fun i => (i, 0))
     (fun _ => 99) (by decide)⟩

/-- Witness for C1 (amended) at lane count 2, n = 4, split point k = 2. -/
theorem C1_split_concat_witness :
    (0 < 2 ∧ 2 ≤ 4 ∧ (2 % 2 = 0 ∨ 2 = 4)) ∧
    ∀ p < 4,
      (generate toyEngine 2 true true (fun x => x)
          (construct 1 0 (fun _ => ((0 : ℕ), (0 : ℕ))) (fun x => x))
          (fun _ => 0) 4).2.2 p =
        (if p < 2 then
          (generate toyEngine 2 true true (fun x => x)
            (construct 1 0 (fun _ => ((0 : ℕ), (0 : ℕ))) (fun x => x))
            (fun _ => 0) 2).2.2 p
         else
          (generate toyEngine 2 true true (fun x => x)
            (generate toyEngine 2 true true (fun x => x)
              (construct 1 0 (fun _ => ((0 : ℕ), (0 : ℕ))) (fun x => x))
              (fun _ => 0) 2).2.1
            (fun _ => 0) (4 - 2)).2.2 (p - 2)) :=
  ⟨⟨by decide, by decide, Or.inl (by decide)⟩,
   C1_split_concat toyEngine (fun x => x) 2 (by decide)
     (construct 1 0 (fun _ => ((0 : ℕ), (0 : ℕ))) (fun x => x)) 4 2
     (by decide) (Or.inl (by decide)) (fun _ => 0) (fun _ => 0) (fun _ => 0)⟩

/-- Witness for C6: a generator reached by construct-then-init has its
pool derived from the current (seed, offset). -/
theorem C6_invalidation_invariant_witness :
    Reachable toyEngine 2
      (init toyEngine 2 true
        (construct 5 0 (fun _ => ((0 : ℕ), (0 : ℕ))) (fun x => x))).2 ∧
    (init toyEngine 2 true
      (construct 5 0 (fun _ => ((0 : ℕ), (0 : ℕ)))
        (fun x => x))).2.m_engines_ready = true ∧
    laneDerived toyEngine 2
      (init toyEngine 2 true
        (construct 5 0 (fun _ => ((0 : ℕ), (0 : ℕ))) (fun x => x))).2 :=
  ⟨Reachable.init_step
      (construct 5 0 (fun _ => ((0 : ℕ), (0 : ℕ))) (fun x => x)) true
      (Reachable.construct_ok 5 0 (fun _ => ((0 : ℕ), (0 : ℕ))) (fun x => x)),
   rfl,
   (C6_invalidation_invariant toyEngine 2
       (construct 5 0 (fun _ => ((0 : ℕ), (0 : ℕ))) (fun x => x)) 0 0).2
     (init toyEngine 2 true
       (construct 5 0 (fun _ => ((0 : ℕ), (0 : ℕ))) (fun x => x))).2
     (Reachable.init_step
       (construct 5 0 (fun _ => ((0 : ℕ), (0 : ℕ))) (fun x => x)) true
       (Reachable.construct_ok 5 0 (fun _ => ((0 : ℕ), (0 : ℕ)))
         (fun x => x)))
     rfl⟩

/-- Witness for C9: two runs differing only in pool and buffer garbage,
over a uniform, a normal and a Poisson call. -/
theorem C9_determinism_witness :
    0 < 2 ∧
    runSeq toyEngine 2 (fun x => x) (fun a b => (a, b)) (fun _ => true)
        (fun _ x => x)
        (construct 7 0 (fun _ => ((0 : ℕ), (0 : ℕ))) (fun x => x))
        [GenCall.uniform 3, GenCall.normalCall 3, GenCall.poissonCall 2 1]
        (fun _ _ => 0)
      = runSeq toyEngine 2 (fun x => x) (fun a b => (a, b)) (fun _ => true)
          (fun _ x => x)
          (construct 7 0 (fun _ => ((5 : ℕ), (5 : ℕ))) (fun x => x))
          [GenCall.uniform 3, GenCall.normalCall 3, GenCall.poissonCall 2 1]
          (fun _ _ => 9) :=
  ⟨by decide,
   C9_determinism toyEngine 2 (by decide) (fun x => x) (fun a b => (a, b))
     (fun _ => true) (fun _ x => x) 7 0
     [GenCall.uniform 3, GenCall.normalCall 3, GenCall.poissonCall 2 1]
     (fun _ => ((0 : ℕ), (0 : ℕ))) (fun _ => ((5 : ℕ), (5 : ℕ)))
     (fun x => x) (fun _ _ => 0) (fun _ _ => 9) (fun _ _ _ => rfl)⟩

end Rocrand
